import Mathlib

/-!
Verification of the ML automation pipeline (ml/automation.py): configuration
merging, dataset loading and splitting, preprocessing construction,
hyperparameter-grid resolution, snapshot persistence, promotion gating and the
API authorization check, shallowly embedded in Lean.
-/

set_option autoImplicit false

namespace MLAuto

/-! ## Generic association lists

Python dicts are insertion-ordered maps with unique keys.  We embed them as
association lists; assignment `d[k] = v` replaces the value in place when the
key is present and appends otherwise. -/

/-- First value stored under `key`, mirroring Python `d[key]` / `d.get(key)`. -/
def lookupAssoc {γ : Type} : List (String × γ) → String → Option γ
  | [], _ => none
  | (k, v) :: rest, key => if k = key then some v else lookupAssoc rest key

/-- Python dict assignment `d[key] = v`: replace in place when the key is
present, append otherwise. -/
def setAssoc {γ : Type} : List (String × γ) → String → γ → List (String × γ)
  | [], key, v => [(key, v)]
  | (k, w) :: rest, key, v =>
    if k = key then (key, v) :: rest else (k, w) :: setAssoc rest key v

/-- The key list of an association list, in insertion order. -/
def keysOf {γ : Type} (l : List (String × γ)) : List String := l.map Prod.fst

section AssocLemmas

variable {γ : Type}

theorem lookupAssoc_eq_none_iff (l : List (String × γ)) (key : String) :
    lookupAssoc l key = none ↔ key ∉ keysOf l := by
  induction l with
  | nil => simp [lookupAssoc, keysOf]
  | cons p rest ih =>
    obtain ⟨k, v⟩ := p
    by_cases h : k = key
    · subst h
      simp [lookupAssoc, keysOf]
    · simp [lookupAssoc, keysOf, h, ih, Ne.symm h]

theorem lookupAssoc_setAssoc_self (l : List (String × γ)) (key : String) (v : γ) :
    lookupAssoc (setAssoc l key v) key = some v := by
  induction l with
  | nil => simp [setAssoc, lookupAssoc]
  | cons p rest ih =>
    obtain ⟨k, w⟩ := p
    by_cases h : k = key
    · simp [setAssoc, lookupAssoc, h]
    · simp [setAssoc, lookupAssoc, h, ih]

theorem lookupAssoc_setAssoc_other (l : List (String × γ)) (key key' : String)
    (v : γ) (hne : key' ≠ key) :
    lookupAssoc (setAssoc l key v) key' = lookupAssoc l key' := by
  induction l with
  | nil => simp [setAssoc, lookupAssoc, Ne.symm hne]
  | cons p rest ih =>
    obtain ⟨k, w⟩ := p
    by_cases h : k = key
    · subst h
      simp [setAssoc, lookupAssoc, Ne.symm hne]
    · by_cases h' : k = key'
      · subst h'
        simp [setAssoc, lookupAssoc, h]
      · simp [setAssoc, lookupAssoc, h, h', ih]

theorem keysOf_setAssoc (l : List (String × γ)) (key : String) (v : γ) :
    keysOf (setAssoc l key v) =
      if key ∈ keysOf l then keysOf l else keysOf l ++ [key] := by
  induction l with
  | nil => simp [setAssoc, keysOf]
  | cons p rest ih =>
    obtain ⟨k, w⟩ := p
    by_cases h : k = key
    · subst h
      simp [setAssoc, keysOf]
    · have hne : ¬ key = k := fun hc => h hc.symm
      by_cases hm : key ∈ keysOf rest
      · simp only [setAssoc, h, if_false, keysOf, List.map_cons] at ih ⊢
        simp only [keysOf] at hm
        simp [ih, hm, hne]
      · simp only [setAssoc, h, if_false, keysOf, List.map_cons] at ih ⊢
        simp only [keysOf] at hm
        simp [ih, hm, hne]

theorem nodup_keysOf_setAssoc (l : List (String × γ)) (key : String) (v : γ)
    (h : (keysOf l).Nodup) : (keysOf (setAssoc l key v)).Nodup := by
  rw [keysOf_setAssoc]
  by_cases hmem : key ∈ keysOf l
  · simpa [hmem] using h
  · simp only [hmem, if_false]
    simpa [List.nodup_append] using ⟨h, hmem⟩

theorem setAssoc_ne_nil (l : List (String × γ)) (key : String) (v : γ) :
    setAssoc l key v ≠ [] := by
  cases l with
  | nil => simp [setAssoc]
  | cons p rest =>
    obtain ⟨k, w⟩ := p
    by_cases h : k = key <;> simp [setAssoc, h]

theorem lookupAssoc_mem {l : List (String × γ)} {key : String} {v : γ}
    (h : lookupAssoc l key = some v) : (key, v) ∈ l := by
  induction l with
  | nil => simp [lookupAssoc] at h
  | cons p rest ih =>
    obtain ⟨k, w⟩ := p
    by_cases hk : k = key
    · subst hk
      simp [lookupAssoc] at h
      simp [h]
    · simp only [lookupAssoc, hk, if_false] at h
      exact List.mem_cons_of_mem _ (ih h)

/-- Association lists with the same keys (no duplicates) and the same lookups
are equal. -/
theorem assoc_ext {l₁ l₂ : List (String × γ)} (hkeys : keysOf l₁ = keysOf l₂)
    (hnd : (keysOf l₁).Nodup)
    (hl : ∀ key, lookupAssoc l₁ key = lookupAssoc l₂ key) : l₁ = l₂ := by
  induction l₁ generalizing l₂ with
  | nil =>
    cases l₂ with
    | nil => rfl
    | cons q t => exact absurd hkeys (by simp [keysOf])
  | cons p t₁ ih =>
    cases l₂ with
    | nil => exact absurd hkeys (by simp [keysOf])
    | cons q t₂ =>
      obtain ⟨k₁, v₁⟩ := p
      obtain ⟨k₂, v₂⟩ := q
      simp only [keysOf, List.map_cons, List.cons.injEq] at hkeys
      obtain ⟨hk, htkeys⟩ := hkeys
      subst hk
      have hv : v₁ = v₂ := by
        have := hl k₁
        simpa [lookupAssoc] using this
      subst hv
      have hnd1 : (k₁ :: keysOf t₁).Nodup := by
        have hmap : keysOf ((k₁, v₁) :: t₁) = k₁ :: keysOf t₁ := by simp [keysOf]
        rwa [hmap] at hnd
      have hk₁ : k₁ ∉ keysOf t₁ := (List.nodup_cons.mp hnd1).1
      have hnd' : (keysOf t₁).Nodup := (List.nodup_cons.mp hnd1).2
      have hlt : ∀ key, lookupAssoc t₁ key = lookupAssoc t₂ key := by
        intro key
        by_cases hkey : key = k₁
        · subst hkey
          rw [(lookupAssoc_eq_none_iff t₁ key).mpr hk₁, Eq.comm,
            lookupAssoc_eq_none_iff, keysOf, ← htkeys]
          exact hk₁
        · have hne : k₁ ≠ key := fun h => hkey h.symm
          simpa [lookupAssoc, hne] using hl key
      exact congrArg _ (ih (by simpa [keysOf] using htkeys) hnd' hlt)

end AssocLemmas

/-! ## Configuration values and deep_merge (Config Resolver)

`Value` embeds the YAML/JSON values a configuration holds: mappings and
non-mapping scalars (scalars are opaque atoms, since `deep_merge` never
inspects them). -/

inductive Value where
  | atom : String → Value
  | dict : List (String × Value) → Value

/-- A Python dict of configuration values. -/
abbrev Dict := List (String × Value)

mutual

/-- Embedding of `deep_merge`: start from a copy of `base` and fold the
override items into it, recursing when both sides hold mappings. -/
def deep_merge : Dict → Dict → Dict
  | out, [] => out
  | out, (key, value) :: rest => deep_merge (mergeStep out key value) rest
termination_by out o => sizeOf o
decreasing_by all_goals (simp_wf <;> omega)

/-- One iteration of the `deep_merge` loop body for the pair `(key, value)`. -/
def mergeStep : Dict → String → Value → Dict
  | out, key, .atom s => setAssoc out key (.atom s)
  | out, key, .dict d₂ =>
    match lookupAssoc out key with
    | some (.dict d₁) => setAssoc out key (.dict (deep_merge d₁ d₂))
    | _ => setAssoc out key (.dict d₂)
termination_by out key v => sizeOf v
decreasing_by all_goals (simp_wf <;> omega)

end

/-- The value `deep_merge` ends up storing under a key of the override, as a
function of what the accumulator held there. -/
def mergeVal (prev : Option Value) (v : Value) : Value :=
  match prev, v with
  | some (.dict d₁), .dict d₂ => .dict (deep_merge d₁ d₂)
  | _, _ => v

/-- Lookup in `deep_merge base override`, described from the two inputs. -/
def mergedLookup (b o : Dict) (key : String) : Option Value :=
  match lookupAssoc o key with
  | none => lookupAssoc b key
  | some v => some (mergeVal (lookupAssoc b key) v)

theorem deep_merge_nil (out : Dict) : deep_merge out [] = out := by
  simp [deep_merge]

theorem deep_merge_cons (out : Dict) (key : String) (value : Value)
    (rest : Dict) :
    deep_merge out ((key, value) :: rest) =
      deep_merge (mergeStep out key value) rest := by
  simp [deep_merge]

theorem lookupAssoc_mergeStep_self (out : Dict) (key : String) (v : Value) :
    lookupAssoc (mergeStep out key v) key =
      some (mergeVal (lookupAssoc out key) v) := by
  cases v with
  | atom s =>
    rw [mergeStep, lookupAssoc_setAssoc_self]
    rcases h : lookupAssoc out key with _ | w
    · simp [mergeVal]
    · cases w <;> simp [mergeVal]
  | dict d₂ =>
    rw [mergeStep]
    rcases h : lookupAssoc out key with _ | w
    · simp [h, lookupAssoc_setAssoc_self, mergeVal]
    · cases w with
      | atom s => simp [h, lookupAssoc_setAssoc_self, mergeVal]
      | dict d₁ => simp [h, lookupAssoc_setAssoc_self, mergeVal]

theorem lookupAssoc_mergeStep_other (out : Dict) (key key' : String) (v : Value)
    (hne : key' ≠ key) :
    lookupAssoc (mergeStep out key v) key' = lookupAssoc out key' := by
  cases v with
  | atom s => rw [mergeStep, lookupAssoc_setAssoc_other _ _ _ _ hne]
  | dict d₂ =>
    rw [mergeStep]
    rcases h : lookupAssoc out key with _ | w
    · simp [h, lookupAssoc_setAssoc_other _ _ _ _ hne]
    · cases w with
      | atom s => simp [h, lookupAssoc_setAssoc_other _ _ _ _ hne]
      | dict d₁ => simp [h, lookupAssoc_setAssoc_other _ _ _ _ hne]

theorem keysOf_mergeStep (out : Dict) (key : String) (v : Value) :
    keysOf (mergeStep out key v) =
      if key ∈ keysOf out then keysOf out else keysOf out ++ [key] := by
  cases v with
  | atom s => rw [mergeStep, keysOf_setAssoc]
  | dict d₂ =>
    rw [mergeStep]
    rcases h : lookupAssoc out key with _ | w
    · simp [h, keysOf_setAssoc]
    · cases w with
      | atom s => simp [h, keysOf_setAssoc]
      | dict d₁ => simp [h, keysOf_setAssoc]

theorem keysOf_subset_deep_merge (o : Dict) : ∀ b : Dict,
    keysOf b ⊆ keysOf (deep_merge b o) := by
  induction o with
  | nil =>
    intro b
    rw [deep_merge_nil]
    exact fun x hx => hx
  | cons p rest ih =>
    intro b
    obtain ⟨key, value⟩ := p
    rw [deep_merge_cons]
    refine subset_trans ?_ (ih (mergeStep b key value))
    rw [keysOf_mergeStep]
    by_cases h : key ∈ keysOf b <;> simp [h, List.subset_append_left]

theorem mem_keysOf_deep_merge (o : Dict) : ∀ (b : Dict) (key : String),
    key ∈ keysOf o → key ∈ keysOf (deep_merge b o) := by
  induction o with
  | nil => intro b key h; simp [keysOf] at h
  | cons p rest ih =>
    intro b key h
    obtain ⟨k, v⟩ := p
    rw [deep_merge_cons]
    have hcons : key ∈ k :: keysOf rest := by
      have hmap : keysOf ((k, v) :: rest) = k :: keysOf rest := by simp [keysOf]
      rwa [hmap] at h
    rcases List.mem_cons.mp hcons with hk | hk
    · subst hk
      refine keysOf_subset_deep_merge rest (mergeStep b key v) ?_
      rw [keysOf_mergeStep]
      by_cases hb : key ∈ keysOf b <;> simp [hb]
    · exact ih (mergeStep b k v) key hk

theorem keysOf_deep_merge_of_subset (o : Dict) : ∀ b : Dict,
    keysOf o ⊆ keysOf b → keysOf (deep_merge b o) = keysOf b := by
  induction o with
  | nil => intro b _; rw [deep_merge_nil]
  | cons p rest ih =>
    intro b hsub
    obtain ⟨key, value⟩ := p
    rw [deep_merge_cons]
    have hkey : key ∈ keysOf b := hsub (by simp [keysOf])
    have hstep : keysOf (mergeStep b key value) = keysOf b := by
      rw [keysOf_mergeStep, if_pos hkey]
    rw [ih (mergeStep b key value) (by
      rw [hstep]
      intro x hx
      exact hsub (by simpa [keysOf] using Or.inr hx)), hstep]

theorem nodup_keysOf_deep_merge (o : Dict) : ∀ b : Dict,
    (keysOf b).Nodup → (keysOf (deep_merge b o)).Nodup := by
  induction o with
  | nil => intro b h; rwa [deep_merge_nil]
  | cons p rest ih =>
    intro b h
    obtain ⟨key, value⟩ := p
    rw [deep_merge_cons]
    refine ih (mergeStep b key value) ?_
    rw [keysOf_mergeStep]
    by_cases hb : key ∈ keysOf b
    · simpa [hb] using h
    · simp only [hb, if_false]
      simpa [List.nodup_append] using ⟨h, hb⟩

theorem lookupAssoc_deep_merge_of_override_none (o : Dict) :
    ∀ (b : Dict) (key : String), lookupAssoc o key = none →
      lookupAssoc (deep_merge b o) key = lookupAssoc b key := by
  induction o with
  | nil => intro b key _; rw [deep_merge_nil]
  | cons p rest ih =>
    intro b key h
    obtain ⟨k, v⟩ := p
    have hk : ¬ k = key := by
      intro hc
      subst hc
      simp [lookupAssoc] at h
    have hrest : lookupAssoc rest key = none := by
      simpa [lookupAssoc, hk] using h
    rw [deep_merge_cons, ih (mergeStep b k v) key hrest,
      lookupAssoc_mergeStep_other _ _ _ _ (fun hc => hk hc.symm)]

/-- The central lookup characterization of `deep_merge`, for overrides with
unique keys (as Python dicts always have). -/
theorem lookupAssoc_deep_merge (o : Dict) : ∀ (b : Dict) (key : String),
    (keysOf o).Nodup →
    lookupAssoc (deep_merge b o) key = mergedLookup b o key := by
  induction o with
  | nil =>
    intro b key _
    rw [deep_merge_nil]
    simp [mergedLookup, lookupAssoc]
  | cons p rest ih =>
    intro b key hnd
    obtain ⟨k, v⟩ := p
    have hnd1 : (k :: keysOf rest).Nodup := by
      have hmap : keysOf ((k, v) :: rest) = k :: keysOf rest := by simp [keysOf]
      rwa [hmap] at hnd
    have hknotin : k ∉ keysOf rest := (List.nodup_cons.mp hnd1).1
    have hndrest : (keysOf rest).Nodup := (List.nodup_cons.mp hnd1).2
    rw [deep_merge_cons, ih (mergeStep b k v) key hndrest]
    by_cases hkey : k = key
    · subst hkey
      have hnone : lookupAssoc rest k = none :=
        (lookupAssoc_eq_none_iff rest k).mpr hknotin
      simp [mergedLookup, lookupAssoc, hnone, lookupAssoc_mergeStep_self]
    · simp [mergedLookup, lookupAssoc, hkey,
        lookupAssoc_mergeStep_other _ _ _ _ (fun hc => hkey hc.symm)]

/-! ### Well-formed configuration values

Python dicts never hold duplicate keys; `WFv` records that invariant
recursively through nested mappings. -/

inductive WFv : Value → Prop where
  | atom (s : String) : WFv (.atom s)
  | dict (d : Dict) (hnd : (keysOf d).Nodup) (hrec : ∀ p ∈ d, WFv p.2) :
      WFv (.dict d)

/-- Well-formedness of a configuration mapping. -/
def WFdict (d : Dict) : Prop := (keysOf d).Nodup ∧ ∀ p ∈ d, WFv p.2

theorem WFdict_of_lookup_dict {b : Dict} {key : String} {d : Dict}
    (hb : WFdict b) (h : lookupAssoc b key = some (.dict d)) : WFdict d := by
  have hmem := lookupAssoc_mem h
  have := hb.2 _ hmem
  cases this with
  | dict _ hnd hrec => exact ⟨hnd, hrec⟩

theorem sizeOf_lt_of_lookup {o : Dict} {key : String} {v : Value}
    (h : lookupAssoc o key = some v) : sizeOf v < sizeOf o := by
  have hmem := lookupAssoc_mem h
  have hlt := List.sizeOf_lt_of_mem hmem
  have : sizeOf (key, v) = 1 + sizeOf key + sizeOf v := rfl
  omega

/-- Merging a well-formed mapping with itself is the identity. -/
theorem deep_merge_self : ∀ (n : ℕ) (d : Dict), sizeOf d ≤ n → WFdict d →
    deep_merge d d = d := by
  intro n
  induction n with
  | zero =>
    intro d hsz _
    cases d with
    | nil => rw [deep_merge_nil]
    | cons p rest => simp at hsz
  | succ n ih =>
    intro d hsz hd
    refine assoc_ext (keysOf_deep_merge_of_subset d d (fun x hx => hx))
      (nodup_keysOf_deep_merge d d hd.1) ?_
    intro key
    rw [lookupAssoc_deep_merge d d key hd.1]
    unfold mergedLookup
    rcases h : lookupAssoc d key with _ | v
    · rfl
    · cases v with
      | atom s => simp [mergeVal]
      | dict d₂ =>
        have hlt : sizeOf (Value.dict d₂) < sizeOf d := sizeOf_lt_of_lookup h
        have hsz₂ : sizeOf d₂ ≤ n := by
          have : sizeOf (Value.dict d₂) = 1 + sizeOf d₂ := by simp
          omega
        have hwf₂ : WFdict d₂ := WFdict_of_lookup_dict hd h
        simp [mergeVal, ih d₂ hsz₂ hwf₂]

/-- Applying the same well-formed override twice is idempotent. -/
theorem deep_merge_override_idem : ∀ (n : ℕ) (o b : Dict), sizeOf o ≤ n →
    WFdict b → WFdict o →
    deep_merge (deep_merge b o) o = deep_merge b o := by
  intro n
  induction n with
  | zero =>
    intro o b hsz _ _
    cases o with
    | nil => rw [deep_merge_nil, deep_merge_nil]
    | cons p rest => simp at hsz
  | succ n ih =>
    intro o b hsz hb ho
    have hsub : keysOf o ⊆ keysOf (deep_merge b o) :=
      fun key hk => mem_keysOf_deep_merge o b key hk
    refine assoc_ext (keysOf_deep_merge_of_subset o (deep_merge b o) hsub)
      (nodup_keysOf_deep_merge o (deep_merge b o)
        (nodup_keysOf_deep_merge o b hb.1)) ?_
    intro key
    rw [lookupAssoc_deep_merge o (deep_merge b o) key ho.1]
    unfold mergedLookup
    rcases h : lookupAssoc o key with _ | v
    · rfl
    · rw [lookupAssoc_deep_merge o b key ho.1]
      unfold mergedLookup
      rw [h]
      cases v with
      | atom s =>
        rcases hbk : lookupAssoc b key with _ | w
        · simp [mergeVal]
        · cases w <;> simp [mergeVal]
      | dict d₂ =>
        have hlt : sizeOf (Value.dict d₂) < sizeOf o := sizeOf_lt_of_lookup h
        have hsz₂ : sizeOf d₂ ≤ n := by
          have : sizeOf (Value.dict d₂) = 1 + sizeOf d₂ := by simp
          omega
        have hwf₂ : WFdict d₂ := WFdict_of_lookup_dict ho h
        rcases hbk : lookupAssoc b key with _ | w
        · simp [mergeVal, deep_merge_self n d₂ hsz₂ hwf₂]
        · cases w with
          | atom s => simp [mergeVal, deep_merge_self n d₂ hsz₂ hwf₂]
          | dict d₁ =>
            have hwf₁ : WFdict d₁ := WFdict_of_lookup_dict hb hbk
            simp [mergeVal, ih d₂ d₁ hsz₂ hwf₁ hwf₂]

/-- A defaults mapping shaped like the head of `DEFAULT_CONFIG`. -/
def exDefaults : Dict :=
  [("dataset", .dict [("input_csv", .atom ""), ("test_size", .atom "0.2")]),
   ("model", .dict [("type", .atom "random_forest")])]

/-- An override replacing one nested key. -/
def exOverride : Dict :=
  [("dataset", .dict [("input_csv", .atom "data.csv")])]

theorem WFdict_exDefaults : WFdict exDefaults := by
  refine ⟨by decide, ?_⟩
  intro p hp
  simp only [exDefaults, List.mem_cons, List.not_mem_nil, or_false] at hp
  rcases hp with hp | hp <;> subst hp
  · refine WFv.dict _ (by decide) ?_
    intro q hq
    simp only [List.mem_cons, List.not_mem_nil, or_false] at hq
    rcases hq with hq | hq <;> subst hq <;> exact WFv.atom _
  · refine WFv.dict _ (by decide) ?_
    intro q hq
    simp only [List.mem_cons, List.not_mem_nil, or_false] at hq
    subst hq
    exact WFv.atom _

theorem WFdict_exOverride : WFdict exOverride := by
  refine ⟨by decide, ?_⟩
  intro p hp
  simp only [exOverride, List.mem_cons, List.not_mem_nil, or_false] at hp
  subst hp
  refine WFv.dict _ (by decide) ?_
  intro q hq
  simp only [List.mem_cons, List.not_mem_nil, or_false] at hq
  subst hq
  exact WFv.atom _

/-- C4: for every well-formed defaults mapping and override mapping, merging
the same override twice is idempotent; every key absent from the override
keeps its default value; and at a key where both sides hold nested mappings
the merged value is the recursive merge of the two, so the preservation of
defaults recurses through nested mappings. -/
theorem deep_merge_idem_and_preserves_defaults (defaults override : Dict)
    (hd : WFdict defaults) (ho : WFdict override) :
    deep_merge (deep_merge defaults override) override =
        deep_merge defaults override ∧
    (∀ key, lookupAssoc override key = none →
      lookupAssoc (deep_merge defaults override) key =
        lookupAssoc defaults key) ∧
    (∀ key d₁ d₂, lookupAssoc defaults key = some (.dict d₁) →
      lookupAssoc override key = some (.dict d₂) →
      lookupAssoc (deep_merge defaults override) key =
        some (.dict (deep_merge d₁ d₂))) := by
  refine ⟨deep_merge_override_idem (sizeOf override) override defaults
    le_rfl hd ho, ?_, ?_⟩
  · intro key h
    exact lookupAssoc_deep_merge_of_override_none override defaults key h
  · intro key d₁ d₂ h₁ h₂
    rw [lookupAssoc_deep_merge override defaults key ho.1]
    unfold mergedLookup
    rw [h₂, h₁]
    simp [mergeVal]

/-- Witness for C4 at a concrete nested configuration. -/
theorem deep_merge_idem_and_preserves_defaults_witness :
    (WFdict exDefaults ∧ WFdict exOverride) ∧
    (deep_merge (deep_merge exDefaults exOverride) exOverride =
        deep_merge exDefaults exOverride ∧
    (∀ key, lookupAssoc exOverride key = none →
      lookupAssoc (deep_merge exDefaults exOverride) key =
        lookupAssoc exDefaults key) ∧
    (∀ key d₁ d₂, lookupAssoc exDefaults key = some (.dict d₁) →
      lookupAssoc exOverride key = some (.dict d₂) →
      lookupAssoc (deep_merge exDefaults exOverride) key =
        some (.dict (deep_merge d₁ d₂)))) :=
  ⟨⟨WFdict_exDefaults, WFdict_exOverride⟩,
    deep_merge_idem_and_preserves_defaults exDefaults exOverride
      WFdict_exDefaults WFdict_exOverride⟩

/-! ## Resolved configuration

The configuration object after `load_config`, flattened to the options the
pipeline reads.  Each field is an `Option`, mirroring the `.get(key, default)`
reads in the source; `none` stands for an absent key.  Accuracies, thresholds
and test fractions are embedded as rationals. -/

structure Config where
  dataset_input_csv : Option String := none
  dataset_target_column : Option String := none
  dataset_drop_columns : Option (List String) := none
  dataset_test_size : Option ℚ := none
  dataset_random_state : Option ℕ := none
  preprocess_numeric_imputer : Option String := none
  preprocess_categorical_imputer : Option String := none
  preprocess_scale_numeric : Option Bool := none
  model_type : Option String := none
  hpo_enabled : Option Bool := none
  hpo_cv_folds : Option ℕ := none
  hpo_scoring : Option String := none
  hpo_param_grid : Option (List (String × List Value)) := none
  training_min_accuracy_to_promote : Option ℚ := none
  api_bearer_token : Option String := none

/-! ## Promotion Gate (maybe_promote) -/

/-- A metrics JSON record.  The promotion gate reads only the accuracy key;
promotion adds the run_id and promoted_at keys to a copy. -/
structure MetricsJson where
  accuracy : Option ℚ
  run_id : Option String := none
  promoted_at : Option String := none
deriving DecidableEq

/-- The production slot: the contents of `production/model.joblib` and
`production/metrics.json`, each possibly absent. -/
structure ProdState where
  model_file : Option String
  metrics_file : Option MetricsJson
deriving DecidableEq

/-- The promotion record returned by `maybe_promote`. -/
structure PromotionRecord where
  promoted : Bool
  threshold : ℚ
  previous_accuracy : ℚ
  current_accuracy : ℚ
deriving DecidableEq

/-- `threshold = float(config["training"].get("min_accuracy_to_promote", 0.85))`. -/
def threshold_of (cfg : Config) : ℚ :=
  cfg.training_min_accuracy_to_promote.getD (85/100)

/-- `previous_accuracy = float(read_json(prod_metrics_path).get("accuracy", -1.0))`:
`read_json` yields an empty record when the file is absent, and `.get` falls
back to -1 when the record has no accuracy key. -/
def previous_accuracy_of (st : ProdState) : ℚ :=
  match st.metrics_file with
  | none => -1
  | some r => r.accuracy.getD (-1)

/-- `promote = current_accuracy >= threshold and current_accuracy >= previous_accuracy`,
with `current_accuracy = float(metrics.get("accuracy", 0.0))`. -/
def promote_decision (metrics : MetricsJson) (cfg : Config) (st : ProdState) :
    Bool :=
  decide (metrics.accuracy.getD 0 ≥ threshold_of cfg) &&
    decide (metrics.accuracy.getD 0 ≥ previous_accuracy_of st)

/-- Embedding of `maybe_promote`.  File-system effects are modelled on the
production slot: the result pairs the returned promotion record with the
production slot after the call.  `model_content` stands for the bytes of the
candidate model file and `now` for `utc_now_iso()`. -/
def maybe_promote (model_content : String) (metrics : MetricsJson)
    (cfg : Config) (run_id : String) (now : String) (st : ProdState) :
    PromotionRecord × ProdState :=
  let promotion : PromotionRecord :=
    { promoted := promote_decision metrics cfg st
      threshold := threshold_of cfg
      previous_accuracy := previous_accuracy_of st
      current_accuracy := metrics.accuracy.getD 0 }
  if promote_decision metrics cfg st then
    (promotion,
      { model_file := some model_content
        metrics_file :=
          some { metrics with run_id := some run_id, promoted_at := some now } })
  else (promotion, st)

theorem maybe_promote_fst (mc : String) (m : MetricsJson) (cfg : Config)
    (rid now : String) (st : ProdState) :
    (maybe_promote mc m cfg rid now st).1 =
      { promoted := promote_decision m cfg st
        threshold := threshold_of cfg
        previous_accuracy := previous_accuracy_of st
        current_accuracy := m.accuracy.getD 0 } := by
  unfold maybe_promote
  by_cases h : promote_decision m cfg st <;> simp [h]

theorem maybe_promote_snd_pos (mc : String) (m : MetricsJson) (cfg : Config)
    (rid now : String) (st : ProdState)
    (h : promote_decision m cfg st = true) :
    (maybe_promote mc m cfg rid now st).2 =
      { model_file := some mc
        metrics_file :=
          some { m with run_id := some rid, promoted_at := some now } } := by
  unfold maybe_promote
  simp [h]

theorem maybe_promote_snd_neg (mc : String) (m : MetricsJson) (cfg : Config)
    (rid now : String) (st : ProdState)
    (h : promote_decision m cfg st = false) :
    (maybe_promote mc m cfg rid now st).2 = st := by
  unfold maybe_promote
  simp [h]

theorem promote_decision_iff (m : MetricsJson) (cfg : Config) (st : ProdState) :
    promote_decision m cfg st = true ↔
      (threshold_of cfg ≤ m.accuracy.getD 0 ∧
        previous_accuracy_of st ≤ m.accuracy.getD 0) := by
  simp [promote_decision, ge_iff_le]

/-- C1: the decision of `maybe_promote` is true exactly when the candidate
accuracy reaches both the configured threshold (default 0.85 when
`training.min_accuracy_to_promote` is absent) and the previous production
accuracy, the latter being -1 when the production metrics record is absent or
holds no accuracy value, so a first run whose non-negative accuracy meets the
threshold is promoted. -/
theorem maybe_promote_decision_correct (mc : String) (m : MetricsJson)
    (cfg : Config) (rid now : String) (st : ProdState) :
    ((maybe_promote mc m cfg rid now st).1.promoted = true ↔
      (threshold_of cfg ≤ m.accuracy.getD 0 ∧
        previous_accuracy_of st ≤ m.accuracy.getD 0)) ∧
    (cfg.training_min_accuracy_to_promote = none →
      threshold_of cfg = 85/100) ∧
    (st.metrics_file = none → previous_accuracy_of st = -1) ∧
    (∀ r, st.metrics_file = some r → r.accuracy = none →
      previous_accuracy_of st = -1) ∧
    (st.metrics_file = none → 0 ≤ m.accuracy.getD 0 →
      threshold_of cfg ≤ m.accuracy.getD 0 →
      (maybe_promote mc m cfg rid now st).1.promoted = true) := by
  refine ⟨?_, ?_, ?_, ?_, ?_⟩
  · rw [maybe_promote_fst]
    exact promote_decision_iff m cfg st
  · intro h
    simp [threshold_of, h]
  · intro h
    simp [previous_accuracy_of, h]
  · intro r hr ha
    simp [previous_accuracy_of, hr, ha]
  · intro hnone h0 hth
    rw [maybe_promote_fst]
    refine (promote_decision_iff m cfg st).mpr ⟨hth, ?_⟩
    rw [show previous_accuracy_of st = -1 by simp [previous_accuracy_of, hnone]]
    linarith

/-- Witness for C1: first run with accuracy 0.90 against the default
threshold and an empty production slot. -/
theorem maybe_promote_decision_correct_witness :
    ((maybe_promote "model-bytes" ⟨some (9/10), none, none⟩ {} "run1" "t1"
        ⟨none, none⟩).1.promoted = true ↔
      (threshold_of {} ≤ (some ((9:ℚ)/10)).getD 0 ∧
        previous_accuracy_of ⟨none, none⟩ ≤ (some ((9:ℚ)/10)).getD 0)) ∧
    (Config.training_min_accuracy_to_promote {} = none →
      threshold_of {} = 85/100) ∧
    (ProdState.metrics_file ⟨none, none⟩ = none →
      previous_accuracy_of ⟨none, none⟩ = -1) ∧
    (∀ r, ProdState.metrics_file ⟨none, none⟩ = some r → r.accuracy = none →
      previous_accuracy_of ⟨none, none⟩ = -1) ∧
    (ProdState.metrics_file ⟨none, none⟩ = none →
      0 ≤ (some ((9:ℚ)/10)).getD 0 →
      threshold_of {} ≤ (some ((9:ℚ)/10)).getD 0 →
      (maybe_promote "model-bytes" ⟨some (9/10), none, none⟩ {} "run1" "t1"
        ⟨none, none⟩).1.promoted = true) :=
  maybe_promote_decision_correct "model-bytes" ⟨some (9/10), none, none⟩ {}
    "run1" "t1" ⟨none, none⟩

/-- C3: the returned record always carries the decision, the threshold used
and both accuracies, and a negative decision leaves the production model file
and metrics record untouched. -/
theorem maybe_promote_frame (mc : String) (m : MetricsJson) (cfg : Config)
    (rid now : String) (st : ProdState) :
    (maybe_promote mc m cfg rid now st).1.promoted =
        promote_decision m cfg st ∧
    (maybe_promote mc m cfg rid now st).1.threshold = threshold_of cfg ∧
    (maybe_promote mc m cfg rid now st).1.previous_accuracy =
        previous_accuracy_of st ∧
    (maybe_promote mc m cfg rid now st).1.current_accuracy =
        m.accuracy.getD 0 ∧
    ((maybe_promote mc m cfg rid now st).1.promoted = false →
      (maybe_promote mc m cfg rid now st).2 = st) := by
  refine ⟨by rw [maybe_promote_fst], by rw [maybe_promote_fst],
    by rw [maybe_promote_fst], by rw [maybe_promote_fst], ?_⟩
  intro h
  rw [maybe_promote_fst] at h
  exact maybe_promote_snd_neg mc m cfg rid now st (by simpa using h)

/-- Witness for C3: a run with accuracy 0.80 against production accuracy 0.90
is not promoted and changes nothing. -/
theorem maybe_promote_frame_witness :
    ((maybe_promote "m2" ⟨some (8/10), none, none⟩ {} "run2" "t2"
        ⟨some "m1", some ⟨some (9/10), some "run1", some "t1"⟩⟩).1.promoted =
      promote_decision ⟨some (8/10), none, none⟩ {}
        ⟨some "m1", some ⟨some (9/10), some "run1", some "t1"⟩⟩) ∧
    ((maybe_promote "m2" ⟨some (8/10), none, none⟩ {} "run2" "t2"
        ⟨some "m1", some ⟨some (9/10), some "run1", some "t1"⟩⟩).1.threshold =
      threshold_of {}) ∧
    ((maybe_promote "m2" ⟨some (8/10), none, none⟩ {} "run2" "t2"
        ⟨some "m1", some ⟨some (9/10), some "run1", some "t1"⟩⟩).1.previous_accuracy =
      previous_accuracy_of ⟨some "m1", some ⟨some (9/10), some "run1", some "t1"⟩⟩) ∧
    ((maybe_promote "m2" ⟨some (8/10), none, none⟩ {} "run2" "t2"
        ⟨some "m1", some ⟨some (9/10), some "run1", some "t1"⟩⟩).1.current_accuracy =
      (some ((8:ℚ)/10)).getD 0) ∧
    ((maybe_promote "m2" ⟨some (8/10), none, none⟩ {} "run2" "t2"
        ⟨some "m1", some ⟨some (9/10), some "run1", some "t1"⟩⟩).1.promoted = false →
      (maybe_promote "m2" ⟨some (8/10), none, none⟩ {} "run2" "t2"
        ⟨some "m1", some ⟨some (9/10), some "run1", some "t1"⟩⟩).2 =
      ⟨some "m1", some ⟨some (9/10), some "run1", some "t1"⟩⟩) :=
  maybe_promote_frame "m2" ⟨some (8/10), none, none⟩ {} "run2" "t2"
    ⟨some "m1", some ⟨some (9/10), some "run1", some "t1"⟩⟩

/-! ## Sequential runs and promotion monotonicity -/

/-- The inputs one pipeline run feeds into `maybe_promote`. -/
structure RunInfo where
  model_content : String
  metrics : MetricsJson
  run_id : String
  now : String

/-- The production slot after one run's promotion decision. -/
def promote_step (cfg : Config) (st : ProdState) (r : RunInfo) : ProdState :=
  (maybe_promote r.model_content r.metrics cfg r.run_id r.now st).2

/-- The production slot after a sequence of non-interleaved runs. -/
def run_promotions (cfg : Config) (st : ProdState) (runs : List RunInfo) :
    ProdState :=
  runs.foldl (promote_step cfg) st

theorem promote_step_mono (cfg : Config) (st : ProdState) (r : RunInfo)
    (h : (r.metrics.accuracy).isSome = true) :
    previous_accuracy_of st ≤ previous_accuracy_of (promote_step cfg st r) := by
  by_cases hp : promote_decision r.metrics cfg st
  · rw [promote_step, maybe_promote_snd_pos _ _ _ _ _ _ hp]
    obtain ⟨a, ha⟩ := Option.isSome_iff_exists.mp h
    have hd := (promote_decision_iff r.metrics cfg st).mp hp
    have h2 := hd.2
    rw [ha] at h2
    simpa [previous_accuracy_of, ha] using h2
  · rw [promote_step, maybe_promote_snd_neg _ _ _ _ _ _ (by simpa using hp)]

theorem promote_step_threshold (cfg : Config) (st : ProdState) (r : RunInfo)
    (h : (r.metrics.accuracy).isSome = true)
    (hp : promote_decision r.metrics cfg st = true) :
    threshold_of cfg ≤ previous_accuracy_of (promote_step cfg st r) := by
  rw [promote_step, maybe_promote_snd_pos _ _ _ _ _ _ hp]
  obtain ⟨a, ha⟩ := Option.isSome_iff_exists.mp h
  have hd := (promote_decision_iff r.metrics cfg st).mp hp
  have h1 := hd.1
  rw [ha] at h1
  simpa [previous_accuracy_of, ha] using h1

theorem chain'_scanl_step {σ α : Type} (R : σ → σ → Prop) (f : σ → α → σ) :
    ∀ (l : List α) (s : σ), (∀ s' a, a ∈ l → R s' (f s' a)) →
      List.Chain' R (List.scanl f s l) := by
  intro l
  induction l with
  | nil =>
    intro s _
    simp
  | cons a t ih =>
    intro s h
    rw [List.scanl_cons]
    have hc : List.Chain' R (List.scanl f (f s a) t) :=
      ih (f s a) (fun s' b hb => h s' b (List.mem_cons_of_mem _ hb))
    cases t with
    | nil =>
      rw [List.scanl_nil]
      exact List.Chain'.cons (h s a (by simp)) (List.chain'_singleton _)
    | cons b t' =>
      rw [List.scanl_cons] at hc ⊢
      exact List.Chain'.cons (h s a (by simp)) hc

/-- C2: over any sequence of sequential runs that each carry an accuracy, the
accuracy stored in the production metrics record (-1 while absent) is
non-decreasing after each promotion decision, and after every decision that
promoted, the stored production accuracy is at least the configured
threshold. -/
theorem promotion_monotonic (cfg : Config) (st : ProdState)
    (runs : List RunInfo)
    (hacc : ∀ r ∈ runs, (r.metrics.accuracy).isSome = true) :
    List.Chain' (· ≤ ·)
      ((List.scanl (promote_step cfg) st runs).map previous_accuracy_of) ∧
    (∀ pre r post, runs = pre ++ r :: post →
      promote_decision r.metrics cfg (run_promotions cfg st pre) = true →
      threshold_of cfg ≤
        previous_accuracy_of (run_promotions cfg st (pre ++ [r]))) := by
  constructor
  · rw [List.chain'_map]
    exact chain'_scanl_step _ _ runs st
      (fun s' r hr => promote_step_mono cfg s' r (hacc r hr))
  · intro pre r post hruns hp
    have hr : r ∈ runs := by
      subst hruns
      simp
    have hfold : run_promotions cfg st (pre ++ [r]) =
        promote_step cfg (run_promotions cfg st pre) r := by
      simp [run_promotions, List.foldl_append]
    rw [hfold]
    exact promote_step_threshold cfg (run_promotions cfg st pre) r
      (hacc r hr) hp

/-- The scenario from the design notes: accuracies 0.90, 0.80, 0.95 against
the default threshold 0.85 starting from an empty production slot. -/
def exRuns : List RunInfo :=
  [⟨"m1", ⟨some (9/10), none, none⟩, "r1", "t1"⟩,
   ⟨"m2", ⟨some (8/10), none, none⟩, "r2", "t2"⟩,
   ⟨"m3", ⟨some (19/20), none, none⟩, "r3", "t3"⟩]

/-- Witness for C2 on the concrete three-run scenario. -/
theorem promotion_monotonic_witness :
    (∀ r ∈ exRuns, (r.metrics.accuracy).isSome = true) ∧
    (List.Chain' (· ≤ ·)
      ((List.scanl (promote_step {}) ⟨none, none⟩ exRuns).map
        previous_accuracy_of) ∧
    (∀ pre r post, exRuns = pre ++ r :: post →
      promote_decision r.metrics {} (run_promotions {} ⟨none, none⟩ pre) =
        true →
      threshold_of {} ≤
        previous_accuracy_of (run_promotions {} ⟨none, none⟩ (pre ++ [r])))) :=
  ⟨by decide, promotion_monotonic {} ⟨none, none⟩ exRuns (by decide)⟩

/-! ## Python string primitives

The source calls `str.strip()`, `str.startswith`, `str.lower` and slicing;
we embed them as functions over the character list of the string (so that
concrete witnesses evaluate). -/

/-- Python `s.strip()`: remove leading and trailing whitespace. -/
def pyStrip (s : String) : String :=
  ⟨((s.data.dropWhile Char.isWhitespace).reverse.dropWhile
      Char.isWhitespace).reverse⟩

/-- Python `s.startswith(pre)`. -/
def pyStartsWith (s pre : String) : Bool := pre.data.isPrefixOf s.data

/-- Python slicing `s[n:]`. -/
def pyDrop (s : String) (n : Nat) : String := ⟨s.data.drop n⟩

/-- Python `s.lower()`. -/
def pyLower (s : String) : String := ⟨s.data.map Char.toLower⟩

/-- Python `"__" in key`, on the character list. -/
def hasDoubleUnderscore : List Char → Bool
  | '_' :: '_' :: _ => true
  | _ :: rest => hasDoubleUnderscore rest
  | [] => false

/-! ## HTTP trigger authorization (create_api_app) -/

/-- Outcome of the `authorize` helper: return normally, or raise an
HTTPException with the given status code and detail. -/
inductive AuthResult where
  | ok : AuthResult
  | httpError (status_code : Nat) (detail : String) : AuthResult
deriving DecidableEq

/-- Embedding of the `authorize` closure in `create_api_app`.  `authorization`
is the optional Authorization header; FastAPI passes `None` when the header is
missing, and an empty string is falsy in Python, so both hit the first check.
Since the value starts with the 7 characters of the Bearer marker,
`split(" ", 1)[1]` is the suffix from index 7. -/
def authorize (authorization : Option String) (token_required : String) :
    AuthResult :=
  if token_required = "" then .ok
  else
    match authorization with
    | none => .httpError 401 "Missing Authorization header"
    | some a =>
      if a = "" then .httpError 401 "Missing Authorization header"
      else if pyStartsWith a "Bearer " then
        let token := pyStrip (pyDrop a 7)
        if token = token_required then .ok
        else .httpError 403 "Invalid bearer token"
      else .httpError 401 "Authorization must use Bearer token"

/-- The body returned by the `/train` handler. -/
structure TrainResponse where
  ok : Bool
  run_id : String
  metrics : MetricsJson
deriving DecidableEq

/-- Embedding of the `/train` handler: read the configured token, authorize,
then invoke the pipeline (abstracted as `run`, giving the summary run
identifier and metrics) and return both.  An error carries the HTTP status
code and detail of the raised exception. -/
def trigger_train (cfg : Config) (authorization : Option String)
    (run : Config → String × MetricsJson) :
    Except (Nat × String) TrainResponse :=
  let token_required := pyStrip (cfg.api_bearer_token.getD "")
  match authorize authorization token_required with
  | .ok => .ok { ok := true, run_id := (run cfg).1, metrics := (run cfg).2 }
  | .httpError c d => .error (c, d)

/-- The HTTP status of an authorization outcome, `none` when authorized. -/
def statusOf : AuthResult → Option Nat
  | .ok => none
  | .httpError c _ => some c

/-- Counterexample to C9 as stated: with token "secret" configured, the
malformed credential "Token secret" is rejected with status 401
(unauthorized), not 403 (forbidden). -/
theorem authorize_malformed_counterexample :
    statusOf (authorize (some "Token secret") "secret") = some 401 ∧
    statusOf (authorize (some "Token secret") "secret") ≠ some 403 := by
  constructor
  · decide
  · decide

/-- C9 (amended): when a bearer token is configured, a missing or empty
credential and a credential not of the form `Bearer <token>` are rejected as
unauthorized (401), a well-formed Bearer credential with a mismatched token is
rejected as forbidden (403), and only a matching Bearer credential invokes the
pipeline and returns the run identifier and metrics. -/
theorem trigger_train_auth (cfg : Config) (authorization : Option String)
    (run : Config → String × MetricsJson)
    (htok : pyStrip (cfg.api_bearer_token.getD "") ≠ "") :
    (authorization = none →
      trigger_train cfg authorization run =
        .error (401, "Missing Authorization header")) ∧
    (authorization = some "" →
      trigger_train cfg authorization run =
        .error (401, "Missing Authorization header")) ∧
    (∀ a, authorization = some a → a ≠ "" →
      pyStartsWith a "Bearer " = false →
      trigger_train cfg authorization run =
        .error (401, "Authorization must use Bearer token")) ∧
    (∀ a, authorization = some a → pyStartsWith a "Bearer " = true →
      pyStrip (pyDrop a 7) ≠ pyStrip (cfg.api_bearer_token.getD "") →
      trigger_train cfg authorization run =
        .error (403, "Invalid bearer token")) ∧
    (∀ a, authorization = some a → pyStartsWith a "Bearer " = true →
      pyStrip (pyDrop a 7) = pyStrip (cfg.api_bearer_token.getD "") →
      trigger_train cfg authorization run =
        .ok { ok := true, run_id := (run cfg).1, metrics := (run cfg).2 }) := by
  refine ⟨?_, ?_, ?_, ?_, ?_⟩
  · intro h
    subst h
    simp [trigger_train, authorize, htok]
  · intro h
    subst h
    simp [trigger_train, authorize, htok]
  · intro a h ha hb
    subst h
    simp [trigger_train, authorize, htok, ha, hb]
  · intro a h hb hne
    subst h
    have ha : a ≠ "" := by
      intro hc
      rw [hc] at hb
      exact absurd hb (by decide)
    simp [trigger_train, authorize, htok, ha, hb, hne]
  · intro a h hb heq
    subst h
    have ha : a ≠ "" := by
      intro hc
      rw [hc] at hb
      exact absurd hb (by decide)
    simp [trigger_train, authorize, htok, ha, hb, heq]

/-- Witness for the amended C9 at a concrete configuration and header. -/
theorem trigger_train_auth_witness :
    pyStrip ((Config.api_bearer_token
        { api_bearer_token := some "secret" } : Option String).getD "") ≠
      "" ∧
    ((some "Bearer secret" = (none : Option String) →
      trigger_train { api_bearer_token := some "secret" }
          (some "Bearer secret") (fun _ => ("rid", ⟨some (9/10), none, none⟩)) =
        .error (401, "Missing Authorization header")) ∧
    (some "Bearer secret" = some "" →
      trigger_train { api_bearer_token := some "secret" }
          (some "Bearer secret") (fun _ => ("rid", ⟨some (9/10), none, none⟩)) =
        .error (401, "Missing Authorization header")) ∧
    (∀ a, some "Bearer secret" = some a → a ≠ "" →
      pyStartsWith a "Bearer " = false →
      trigger_train { api_bearer_token := some "secret" }
          (some "Bearer secret") (fun _ => ("rid", ⟨some (9/10), none, none⟩)) =
        .error (401, "Authorization must use Bearer token")) ∧
    (∀ a, some "Bearer secret" = some a → pyStartsWith a "Bearer " = true →
      pyStrip (pyDrop a 7) ≠
        pyStrip ((Config.api_bearer_token
          { api_bearer_token := some "secret" } : Option String).getD "") →
      trigger_train { api_bearer_token := some "secret" }
          (some "Bearer secret") (fun _ => ("rid", ⟨some (9/10), none, none⟩)) =
        .error (403, "Invalid bearer token")) ∧
    (∀ a, some "Bearer secret" = some a → pyStartsWith a "Bearer " = true →
      pyStrip (pyDrop a 7) =
        pyStrip ((Config.api_bearer_token
          { api_bearer_token := some "secret" } : Option String).getD "") →
      trigger_train { api_bearer_token := some "secret" }
          (some "Bearer secret") (fun _ => ("rid", ⟨some (9/10), none, none⟩)) =
        .ok { ok := true, run_id := "rid",
              metrics := ⟨some (9/10), none, none⟩ })) :=
  ⟨by decide,
    trigger_train_auth { api_bearer_token := some "secret" }
      (some "Bearer secret") (fun _ => ("rid", ⟨some (9/10), none, none⟩))
      (by decide)⟩

/-! ## Preprocess snapshot persistence (save_preprocess_snapshot) -/

/-- A pandas DataFrame, column-oriented: column names paired with their cell
lists, in column order. -/
abbrev Table (α : Type) := List (String × List α)

/-- Pandas column assignment `df[name] = vals`: overwrite the column in place
when it exists, append it as the trailing column otherwise — the same
insertion semantics as `setAssoc`. -/
def dfAssign {α : Type} (df : Table α) (name : String) (vals : List α) :
    Table α :=
  setAssoc df name vals

/-- Embedding of `save_preprocess_snapshot`, restricted to the persisted
tables: the train and test CSVs hold copies of the feature tables with the
label values assigned to the column literally named "target". -/
def save_preprocess_snapshot {α : Type} (X_train X_test : Table α)
    (y_train y_test : List α) : Table α × Table α :=
  (dfAssign X_train "target" y_train, dfAssign X_test "target" y_test)

theorem setAssoc_eq_append_of_not_mem {γ : Type} (l : List (String × γ))
    (key : String) (v : γ) (h : key ∉ keysOf l) :
    setAssoc l key v = l ++ [(key, v)] := by
  induction l with
  | nil => simp [setAssoc]
  | cons p rest ih =>
    obtain ⟨k, w⟩ := p
    have hk : ¬ k = key := by
      intro hc
      exact h (by simp [keysOf, hc])
    have hrest : key ∉ keysOf rest := by
      intro hc
      exact h (by simp [keysOf]; right; simpa [keysOf] using hc)
    simp [setAssoc, hk, ih hrest]

/-- C10: the persisted snapshot tables always store the labels under the
column named "target" (the function never consults the configured target
column); when the feature table has no "target" column the labels are
appended as the trailing column, and when it does, that column keeps its
place but its values are replaced by the labels, the other columns being
untouched. -/
theorem save_preprocess_snapshot_target {α : Type} (X_train X_test : Table α)
    (y_train y_test : List α) :
    (lookupAssoc (save_preprocess_snapshot X_train X_test y_train y_test).1
        "target" = some y_train ∧
      lookupAssoc (save_preprocess_snapshot X_train X_test y_train y_test).2
        "target" = some y_test) ∧
    ("target" ∉ keysOf X_train →
      (save_preprocess_snapshot X_train X_test y_train y_test).1 =
        X_train ++ [("target", y_train)]) ∧
    ("target" ∈ keysOf X_train →
      keysOf (save_preprocess_snapshot X_train X_test y_train y_test).1 =
        keysOf X_train) ∧
    (∀ name, name ≠ "target" →
      lookupAssoc (save_preprocess_snapshot X_train X_test y_train y_test).1
        name = lookupAssoc X_train name) := by
  refine ⟨⟨?_, ?_⟩, ?_, ?_, ?_⟩
  · exact lookupAssoc_setAssoc_self X_train "target" y_train
  · exact lookupAssoc_setAssoc_self X_test "target" y_test
  · intro h
    exact setAssoc_eq_append_of_not_mem X_train "target" y_train h
  · intro h
    rw [show (save_preprocess_snapshot X_train X_test y_train y_test).1 =
      setAssoc X_train "target" y_train from rfl, keysOf_setAssoc, if_pos h]
  · intro name hname
    exact lookupAssoc_setAssoc_other X_train "target" name y_train hname

/-- Witness for C10: a feature table that already holds a "target" column
(possible when the configured label column has a different name) has its
values silently replaced. -/
theorem save_preprocess_snapshot_target_witness :
    (lookupAssoc (save_preprocess_snapshot
        [("target", [(1:ℚ), 2]), ("f", [3, 4])] [("g", [7])]
        [5, 6] [8]).1 "target" = some [5, 6] ∧
      lookupAssoc (save_preprocess_snapshot
        [("target", [(1:ℚ), 2]), ("f", [3, 4])] [("g", [7])]
        [5, 6] [8]).2 "target" = some [8]) ∧
    ("target" ∉ keysOf [("target", [(1:ℚ), 2]), ("f", [3, 4])] →
      (save_preprocess_snapshot
        [("target", [(1:ℚ), 2]), ("f", [3, 4])] [("g", [7])]
        [5, 6] [8]).1 =
        [("target", [(1:ℚ), 2]), ("f", [3, 4])] ++ [("target", [5, 6])]) ∧
    ("target" ∈ keysOf [("target", [(1:ℚ), 2]), ("f", [3, 4])] →
      keysOf (save_preprocess_snapshot
        [("target", [(1:ℚ), 2]), ("f", [3, 4])] [("g", [7])]
        [5, 6] [8]).1 =
        keysOf [("target", [(1:ℚ), 2]), ("f", [3, 4])]) ∧
    (∀ name, name ≠ "target" →
      lookupAssoc (save_preprocess_snapshot
        [("target", [(1:ℚ), 2]), ("f", [3, 4])] [("g", [7])]
        [5, 6] [8]).1 name =
      lookupAssoc [("target", [(1:ℚ), 2]), ("f", [3, 4])] name) :=
  save_preprocess_snapshot_target
    [("target", [(1:ℚ), 2]), ("f", [3, 4])] [("g", [7])] [5, 6] [8]

/-! ## Dataset loading (load_dataset) -/

/-- The error taxonomy raised by the pipeline: `FileNotFoundError` for a
missing dataset CSV, `ValueError` for a missing target column, and
`ValueError` for an unsupported model type. -/
inductive MlError where
  | DatasetNotFound (path : String)
  | TargetColumnMissing (column : String) (path : String)
  | UnsupportedModelType (model_type : String)
deriving DecidableEq

/-- Embedding of `load_dataset`.  `fs` models the file system as a partial
map from paths to parsed CSV tables (`Path.exists` is `isSome`);
`fallback` stands for the deterministic built-in breast-cancer dataset used
when no input CSV is configured. -/
def load_dataset {α : Type} (fs : String → Option (Table α))
    (fallback : Table α × List α) (cfg : Config) :
    Except MlError (Table α × List α) :=
  let input_csv := pyStrip (cfg.dataset_input_csv.getD "")
  let target_column := pyStrip (cfg.dataset_target_column.getD "target")
  let drop_columns := cfg.dataset_drop_columns.getD []
  if input_csv ≠ "" then
    match fs input_csv with
    | none => .error (.DatasetNotFound input_csv)
    | some df =>
      if target_column ∈ keysOf df then
        let y := (lookupAssoc df target_column).getD []
        let X0 := df.filter (fun c => c.1 ≠ target_column)
        let X := if drop_columns.isEmpty then X0
          else X0.filter (fun c => c.1 ∉ drop_columns)
        .ok (X, y)
      else .error (.TargetColumnMissing target_column input_csv)
  else .ok fallback

theorem lookupAssoc_isSome_of_mem {γ : Type} {l : List (String × γ)}
    {key : String} (h : key ∈ keysOf l) :
    ∃ v, lookupAssoc l key = some v := by
  rcases hv : lookupAssoc l key with _ | v
  · exact absurd ((lookupAssoc_eq_none_iff l key).mp hv) (not_not.mpr h)
  · exact ⟨v, rfl⟩

theorem mem_keysOf_filter {α : Type} {p : String × List α → Bool}
    {df : Table α} {k : String} :
    k ∈ keysOf (df.filter p) ↔ ∃ v, (k, v) ∈ df ∧ p (k, v) = true := by
  constructor
  · intro h
    rcases List.mem_map.mp h with ⟨c, hc, hck⟩
    rcases List.mem_filter.mp hc with ⟨hcd, hcp⟩
    refine ⟨c.2, ?_, ?_⟩
    · rwa [show (k, c.2) = c from by rw [← hck]]
    · rwa [show (k, c.2) = c from by rw [← hck]]
  · rintro ⟨v, hv, hp⟩
    exact List.mem_map.mpr ⟨(k, v), List.mem_filter.mpr ⟨hv, hp⟩, rfl⟩

/-- C8: with a non-empty configured input CSV path, loading fails with
DatasetNotFound exactly when the path does not exist, fails with
TargetColumnMissing exactly when the file exists but lacks the configured
target column, and otherwise returns the target column as labels together
with the feature table from which the target column and all configured
drop-columns have been removed (and nothing else). -/
theorem load_dataset_spec {α : Type} (fs : String → Option (Table α))
    (fallback : Table α × List α) (cfg : Config)
    (hne : pyStrip (cfg.dataset_input_csv.getD "") ≠ "") :
    (load_dataset fs fallback cfg =
        .error (.DatasetNotFound (pyStrip (cfg.dataset_input_csv.getD ""))) ↔
      fs (pyStrip (cfg.dataset_input_csv.getD "")) = none) ∧
    (load_dataset fs fallback cfg =
        .error (.TargetColumnMissing
          (pyStrip (cfg.dataset_target_column.getD "target"))
          (pyStrip (cfg.dataset_input_csv.getD ""))) ↔
      (∃ df, fs (pyStrip (cfg.dataset_input_csv.getD "")) = some df ∧
        pyStrip (cfg.dataset_target_column.getD "target") ∉ keysOf df)) ∧
    (∀ df, fs (pyStrip (cfg.dataset_input_csv.getD "")) = some df →
      pyStrip (cfg.dataset_target_column.getD "target") ∈ keysOf df →
      ∃ X y, load_dataset fs fallback cfg = .ok (X, y) ∧
        lookupAssoc df (pyStrip (cfg.dataset_target_column.getD "target")) =
          some y ∧
        pyStrip (cfg.dataset_target_column.getD "target") ∉ keysOf X ∧
        (∀ d ∈ cfg.dataset_drop_columns.getD [], d ∉ keysOf X) ∧
        (∀ c ∈ X, c ∈ df ∧
          c.1 ≠ pyStrip (cfg.dataset_target_column.getD "target") ∧
          c.1 ∉ cfg.dataset_drop_columns.getD []) ∧
        (∀ c ∈ df,
          c.1 ≠ pyStrip (cfg.dataset_target_column.getD "target") →
          c.1 ∉ cfg.dataset_drop_columns.getD [] → c ∈ X)) := by
  refine ⟨?_, ?_, ?_⟩
  · constructor
    · intro h
      rcases hfs : fs (pyStrip (cfg.dataset_input_csv.getD "")) with _ | df
      · rfl
      · by_cases ht : pyStrip (cfg.dataset_target_column.getD "target") ∈
          keysOf df
        · simp [load_dataset, hne, hfs, ht] at h
        · simp [load_dataset, hne, hfs, ht] at h
    · intro h
      simp [load_dataset, hne, h]
  · constructor
    · intro h
      rcases hfs : fs (pyStrip (cfg.dataset_input_csv.getD "")) with _ | df
      · simp [load_dataset, hne, hfs] at h
      · by_cases ht : pyStrip (cfg.dataset_target_column.getD "target") ∈
          keysOf df
        · simp [load_dataset, hne, hfs, ht] at h
        · exact ⟨df, rfl, ht⟩
    · rintro ⟨df, hfs, ht⟩
      simp [load_dataset, hne, hfs, ht]
  · intro df hfs ht
    obtain ⟨y, hy⟩ := lookupAssoc_isSome_of_mem ht
    have hfilter : (if (cfg.dataset_drop_columns.getD []).isEmpty then
        df.filter (fun c =>
          c.1 ≠ pyStrip (cfg.dataset_target_column.getD "target"))
      else (df.filter (fun c =>
          c.1 ≠ pyStrip (cfg.dataset_target_column.getD "target"))).filter
        (fun c => c.1 ∉ cfg.dataset_drop_columns.getD [])) =
        (df.filter (fun c =>
          c.1 ≠ pyStrip (cfg.dataset_target_column.getD "target"))).filter
        (fun c => c.1 ∉ cfg.dataset_drop_columns.getD []) := by
      by_cases hD : (cfg.dataset_drop_columns.getD []).isEmpty
      · rw [if_pos hD]
        have hDnil : cfg.dataset_drop_columns.getD [] = [] :=
          List.isEmpty_iff.mp hD
        rw [hDnil]
        rw [Eq.comm, List.filter_eq_self]
        intro a _
        simp
      · rw [if_neg hD]
    refine ⟨(df.filter (fun c =>
        c.1 ≠ pyStrip (cfg.dataset_target_column.getD "target"))).filter
        (fun c => c.1 ∉ cfg.dataset_drop_columns.getD []), y, ?_, hy, ?_, ?_,
        ?_, ?_⟩
    · simp only [load_dataset]
      rw [if_pos hne, hfs]
      simp only [ht, if_true, hy, Option.getD_some]
      rw [hfilter]
    · intro hmem
      rcases mem_keysOf_filter.mp hmem with ⟨v, hv, _⟩
      rcases List.mem_filter.mp hv with ⟨_, hp⟩
      simp at hp
    · intro d hd hmem
      rcases mem_keysOf_filter.mp hmem with ⟨v, _, hp⟩
      rw [decide_eq_true_eq] at hp
      exact hp hd
    · intro c hc
      rcases List.mem_filter.mp hc with ⟨hc0, hpD⟩
      rcases List.mem_filter.mp hc0 with ⟨hcd, hpT⟩
      exact ⟨hcd, by simpa using hpT, by simpa using hpD⟩
    · intro c hcd hcT hcD
      exact List.mem_filter.mpr ⟨List.mem_filter.mpr ⟨hcd, by simpa using hcT⟩,
        by simpa using hcD⟩

/-- A concrete CSV with a label column and a drop column. -/
def exCsv : Table ℚ := [("a", [1, 2]), ("label", [0, 1]), ("junk", [9, 9])]

/-- A file system holding only that CSV. -/
def exFs : String → Option (Table ℚ) :=
  fun p => if p = "data.csv" then some exCsv else none

/-- A configuration pointing at it. -/
def exCfg8 : Config :=
  { dataset_input_csv := some "data.csv",
    dataset_target_column := some "label",
    dataset_drop_columns := some ["junk"] }

/-- Witness for C8 at a concrete file system and configuration. -/
theorem load_dataset_spec_witness :
    pyStrip (exCfg8.dataset_input_csv.getD "") ≠ "" ∧
    ((load_dataset exFs ([], []) exCfg8 =
        .error (.DatasetNotFound (pyStrip (exCfg8.dataset_input_csv.getD ""))) ↔
      exFs (pyStrip (exCfg8.dataset_input_csv.getD "")) = none) ∧
    (load_dataset exFs ([], []) exCfg8 =
        .error (.TargetColumnMissing
          (pyStrip (exCfg8.dataset_target_column.getD "target"))
          (pyStrip (exCfg8.dataset_input_csv.getD ""))) ↔
      (∃ df, exFs (pyStrip (exCfg8.dataset_input_csv.getD "")) = some df ∧
        pyStrip (exCfg8.dataset_target_column.getD "target") ∉ keysOf df)) ∧
    (∀ df, exFs (pyStrip (exCfg8.dataset_input_csv.getD "")) = some df →
      pyStrip (exCfg8.dataset_target_column.getD "target") ∈ keysOf df →
      ∃ X y, load_dataset exFs ([], []) exCfg8 = .ok (X, y) ∧
        lookupAssoc df (pyStrip (exCfg8.dataset_target_column.getD "target")) =
          some y ∧
        pyStrip (exCfg8.dataset_target_column.getD "target") ∉ keysOf X ∧
        (∀ d ∈ exCfg8.dataset_drop_columns.getD [], d ∉ keysOf X) ∧
        (∀ c ∈ X, c ∈ df ∧
          c.1 ≠ pyStrip (exCfg8.dataset_target_column.getD "target") ∧
          c.1 ∉ exCfg8.dataset_drop_columns.getD []) ∧
        (∀ c ∈ df,
          c.1 ≠ pyStrip (exCfg8.dataset_target_column.getD "target") →
          c.1 ∉ exCfg8.dataset_drop_columns.getD [] → c ∈ X))) :=
  ⟨by decide, load_dataset_spec exFs ([], []) exCfg8 (by decide)⟩

/-! ## Preprocessor construction (build_preprocessor) -/

/-- A pandas dtype, as far as column routing cares: numeric, boolean, or
anything else (object, string, category, datetime, ...). -/
inductive Dtype where
  | number
  | boolean
  | other
deriving DecidableEq

/-- A column of the training feature table: its name and dtype. -/
structure Col where
  name : String
  dtype : Dtype
deriving DecidableEq

/-- `X.select_dtypes(include=["number", "bool"]).columns.tolist()`:
the numeric-like columns, in original order. -/
def numeric_cols (X : List Col) : List String :=
  (X.filter (fun c => c.dtype = .number ∨ c.dtype = .boolean)).map Col.name

/-- `[c for c in X.columns if c not in numeric_cols]`. -/
def categorical_cols (X : List Col) : List String :=
  (X.map Col.name).filter (fun n => n ∉ numeric_cols X)

/-- One step of an sklearn Pipeline, with the constructor arguments the
source passes. -/
inductive Step where
  | simpleImputer (strategy : String)
  | standardScaler
  | oneHotEncoder (handle_unknown : String) (sparse_output : Bool)
deriving DecidableEq

/-- One entry of the ColumnTransformer transformers list: entry name,
pipeline steps, column list. -/
structure TransformerSpec where
  name : String
  steps : List (String × Step)
  cols : List String
deriving DecidableEq

/-- The preprocessing stage: the string "passthrough" or a ColumnTransformer
with its remainder policy. -/
inductive Preproc where
  | passthrough
  | columnTransformer (transformers : List TransformerSpec) (remainder : String)
deriving DecidableEq

/-- The numeric pipeline steps: imputer, then optionally a scaler. -/
def numeric_pipeline (cfg : Config) : List (String × Step) :=
  [("imputer", Step.simpleImputer (cfg.preprocess_numeric_imputer.getD
      "median"))] ++
  (if cfg.preprocess_scale_numeric.getD true then
    [("scaler", Step.standardScaler)] else [])

/-- The categorical pipeline steps: imputer, then a one-hot encoder that
ignores unknown categories. -/
def categorical_pipeline (cfg : Config) : List (String × Step) :=
  [("imputer", Step.simpleImputer (cfg.preprocess_categorical_imputer.getD
      "most_frequent")),
   ("encoder", Step.oneHotEncoder "ignore" false)]

/-- Embedding of `build_preprocessor`. -/
def build_preprocessor (X : List Col) (cfg : Config) : Preproc :=
  let numeric := numeric_cols X
  let categorical := categorical_cols X
  let transformers :=
    (if numeric ≠ [] then
      [TransformerSpec.mk "numeric" (numeric_pipeline cfg) numeric]
    else []) ++
    (if categorical ≠ [] then
      [TransformerSpec.mk "categorical" (categorical_pipeline cfg) categorical]
    else [])
  if transformers = [] then .passthrough
  else .columnTransformer transformers "drop"

theorem categorical_cols_eq_filter (X : List Col)
    (hnd : (X.map Col.name).Nodup) :
    categorical_cols X =
      (X.filter (fun c =>
        ¬ (c.dtype = .number ∨ c.dtype = .boolean))).map Col.name := by
  unfold categorical_cols
  rw [List.filter_map]
  congr 1
  apply List.filter_congr
  intro c hc
  simp only [Function.comp, decide_eq_decide]
  constructor
  · intro hmem
    intro hp
    exact hmem (List.mem_map.mpr
      ⟨c, List.mem_filter.mpr ⟨hc, by simpa using hp⟩, rfl⟩)
  · intro hp hmem
    rcases List.mem_map.mp hmem with ⟨c', hc', hcc⟩
    rcases List.mem_filter.mp hc' with ⟨hc'X, hc'p⟩
    have : c' = c := List.inj_on_of_nodup_map hnd hc'X hc hcc
    subst this
    exact hp (by simpa using hc'p)

theorem numeric_categorical_partition (X : List Col)
    (hnd : (X.map Col.name).Nodup) :
    (numeric_cols X ++ categorical_cols X).Perm (X.map Col.name) := by
  rw [categorical_cols_eq_filter X hnd]
  unfold numeric_cols
  rw [← List.map_append]
  refine List.Perm.map Col.name ?_
  have := List.filter_append_perm
    (fun c => decide (c.dtype = .number ∨ c.dtype = .boolean)) X
  refine List.Perm.trans (List.Perm.append_left _ ?_) this
  apply List.Perm.of_eq
  apply List.filter_congr
  intro c _
  simp

/-- C6: `build_preprocessor` routes numeric/boolean columns to the numeric
group and every other column to the categorical group, each preserving
original column order; an empty group contributes no transformer; both groups
are empty exactly when the table has no columns, in which case the stage is
the passthrough no-op; otherwise the stage is a ColumnTransformer over the
non-empty groups with remainder "drop". -/
theorem build_preprocessor_spec (X : List Col) (cfg : Config)
    (hnd : (X.map Col.name).Nodup) :
    numeric_cols X =
      (X.filter (fun c => c.dtype = .number ∨ c.dtype = .boolean)).map
        Col.name ∧
    categorical_cols X =
      (X.filter (fun c =>
        ¬ (c.dtype = .number ∨ c.dtype = .boolean))).map Col.name ∧
    (numeric_cols X ++ categorical_cols X).Perm (X.map Col.name) ∧
    (build_preprocessor X cfg = .passthrough ↔ X = []) ∧
    (numeric_cols X ≠ [] → categorical_cols X = [] →
      build_preprocessor X cfg = .columnTransformer
        [⟨"numeric", numeric_pipeline cfg, numeric_cols X⟩] "drop") ∧
    (numeric_cols X = [] → categorical_cols X ≠ [] →
      build_preprocessor X cfg = .columnTransformer
        [⟨"categorical", categorical_pipeline cfg, categorical_cols X⟩]
        "drop") ∧
    (numeric_cols X ≠ [] → categorical_cols X ≠ [] →
      build_preprocessor X cfg = .columnTransformer
        [⟨"numeric", numeric_pipeline cfg, numeric_cols X⟩,
         ⟨"categorical", categorical_pipeline cfg, categorical_cols X⟩]
        "drop") := by
  have hboth : (numeric_cols X = [] ∧ categorical_cols X = []) ↔ X = [] := by
    constructor
    · rintro ⟨hn, hc⟩
      cases hX : X with
      | nil => rfl
      | cons c rest =>
        exfalso
        rw [hX] at hn hc
        by_cases hd : c.dtype = .number ∨ c.dtype = .boolean
        · have : c.name ∈ numeric_cols (c :: rest) := by
            unfold numeric_cols
            exact List.mem_map.mpr
              ⟨c, List.mem_filter.mpr ⟨by simp, by simpa using hd⟩, rfl⟩
          rw [hn] at this
          simp at this
        · have : c.name ∈ categorical_cols (c :: rest) := by
            unfold categorical_cols
            refine List.mem_filter.mpr ⟨by simp, ?_⟩
            rw [hn]
            simp
          rw [hc] at this
          simp at this
    · intro hX
      subst hX
      constructor <;> rfl
  refine ⟨rfl, categorical_cols_eq_filter X hnd,
    numeric_categorical_partition X hnd, ?_, ?_, ?_, ?_⟩
  · constructor
    · intro h
      by_cases hn : numeric_cols X = [] <;>
        by_cases hc : categorical_cols X = []
      · exact hboth.mp ⟨hn, hc⟩
      · simp [build_preprocessor, hn, hc] at h
      · simp [build_preprocessor, hn, hc] at h
      · simp [build_preprocessor, hn, hc] at h
    · intro h
      subst h
      rfl
  · intro hn hc
    simp [build_preprocessor, hn, hc]
  · intro hn hc
    simp [build_preprocessor, hn, hc]
  · intro hn hc
    simp [build_preprocessor, hn, hc]

/-- A concrete mixed table: a numeric column, a boolean column, and a string
column. -/
def exCols : List Col :=
  [⟨"age", .number⟩, ⟨"member", .boolean⟩, ⟨"city", .other⟩]

/-- Witness for C6 on the concrete mixed table. -/
theorem build_preprocessor_spec_witness :
    (exCols.map Col.name).Nodup ∧
    (numeric_cols exCols =
      (exCols.filter (fun c => c.dtype = .number ∨ c.dtype = .boolean)).map
        Col.name ∧
    categorical_cols exCols =
      (exCols.filter (fun c =>
        ¬ (c.dtype = .number ∨ c.dtype = .boolean))).map Col.name ∧
    (numeric_cols exCols ++ categorical_cols exCols).Perm
      (exCols.map Col.name) ∧
    (build_preprocessor exCols {} = .passthrough ↔ exCols = []) ∧
    (numeric_cols exCols ≠ [] → categorical_cols exCols = [] →
      build_preprocessor exCols {} = .columnTransformer
        [⟨"numeric", numeric_pipeline {}, numeric_cols exCols⟩] "drop") ∧
    (numeric_cols exCols = [] → categorical_cols exCols ≠ [] →
      build_preprocessor exCols {} = .columnTransformer
        [⟨"categorical", categorical_pipeline {}, categorical_cols exCols⟩]
        "drop") ∧
    (numeric_cols exCols ≠ [] → categorical_cols exCols ≠ [] →
      build_preprocessor exCols {} = .columnTransformer
        [⟨"numeric", numeric_pipeline {}, numeric_cols exCols⟩,
         ⟨"categorical", categorical_pipeline {}, categorical_cols exCols⟩]
        "drop")) :=
  ⟨by decide, build_preprocessor_spec exCols {} (by decide)⟩

/-! ## Model building and hyperparameter-grid resolution (train_model) -/

/-- The two supported estimators, with the constructor arguments the source
passes. -/
inductive ModelSpec where
  | randomForest (n_estimators : Nat) (random_state : Nat)
  | logisticRegression (max_iter : Nat) (random_state : Nat)
deriving DecidableEq

/-- `str(config["model"].get("type", "random_forest")).strip().lower()`. -/
def model_type_of (cfg : Config) : String :=
  pyLower (pyStrip (cfg.model_type.getD "random_forest"))

/-- Embedding of `build_model`. -/
def build_model (cfg : Config) : Except MlError ModelSpec :=
  let mt := model_type_of cfg
  let seed := cfg.dataset_random_state.getD 42
  if mt = "random_forest" then .ok (.randomForest 200 seed)
  else if mt = "logistic_regression" then .ok (.logisticRegression 2000 seed)
  else .error (.UnsupportedModelType mt)

/-- A hyperparameter grid: parameter names with candidate value lists. -/
abbrev ParamGrid := List (String × List Value)

/-- Embedding of `default_param_grid`. -/
def default_param_grid (model_type : String) : ParamGrid :=
  if model_type = "random_forest" then
    [("model__n_estimators", [.atom "100", .atom "200", .atom "300"]),
     ("model__max_depth", [.atom "None", .atom "10", .atom "20"]),
     ("model__min_samples_split", [.atom "2", .atom "5"])]
  else if model_type = "logistic_regression" then
    [("model__C", [.atom "0.1", .atom "1.0", .atom "10.0"]),
     ("model__solver", [.atom "lbfgs", .atom "liblinear"])]
  else []

/-- The key a grid entry is stored under: keys holding "__" unchanged, bare
keys namespaced to the model stage. -/
def namespaced_key (key : String) : String :=
  if hasDoubleUnderscore key.data then key else "model__" ++ key

/-- Embedding of `normalize_param_grid`: a fresh dict filled in iteration
order. -/
def normalize_param_grid (raw_grid : ParamGrid) : ParamGrid :=
  raw_grid.foldl (fun acc p => setAssoc acc (namespaced_key p.1) p.2) []

/-- The hpo report dict; a `none` field is a key the dict does not carry. -/
structure HpoReport where
  enabled : Bool
  used_default_grid : Option Bool := none
  cv_folds : Option Nat := none
  scoring : Option String := none
  best_score : Option ℚ := none
  best_params : Option ParamGrid := none

/-- What `GridSearchCV.fit` produces, abstracted: the best cross-validated
score and parameter combination. -/
structure SearchOutcome where
  best_score : ℚ
  best_params : ParamGrid

/-- How `train_model` fit the estimator: a direct `estimator.fit`, or a grid
search over a resolved grid with the given fold count and scoring metric.
Each constructor carries the report dict returned alongside. -/
inductive TrainResult where
  | direct (report : HpoReport)
  | searched (grid : ParamGrid) (cv_folds : Nat) (scoring : String)
      (report : HpoReport)

/-- Embedding of the hyperparameter block of `train_model` (the code after
the pipeline is assembled); `search` abstracts `GridSearchCV.fit` on the
resolved grid, fold count and scoring metric. -/
def hpo_fit (model_type : String) (cfg : Config)
    (search : ParamGrid → Nat → String → SearchOutcome) : TrainResult :=
  if cfg.hpo_enabled.getD true = false then .direct { enabled := false }
  else
    let configured_grid := cfg.hpo_param_grid.getD []
    let grid := if configured_grid.isEmpty = false then
        normalize_param_grid configured_grid
      else default_param_grid model_type
    let cv_folds := cfg.hpo_cv_folds.getD 3
    let scoring := cfg.hpo_scoring.getD "f1_weighted"
    if grid.isEmpty then
      .direct { enabled := true, used_default_grid := some false,
                best_params := some [] }
    else
      let res := search grid cv_folds scoring
      .searched grid cv_folds scoring
        { enabled := true,
          used_default_grid := some configured_grid.isEmpty,
          cv_folds := some cv_folds, scoring := some scoring,
          best_score := some res.best_score,
          best_params := some res.best_params }

/-- Embedding of `train_model`: assemble the pipeline (which raises for an
unsupported model type) and run the hyperparameter block. -/
def train_model (X_train : List Col) (cfg : Config)
    (search : ParamGrid → Nat → String → SearchOutcome) :
    Except MlError (Preproc × TrainResult) :=
  match build_model cfg with
  | .error e => .error e
  | .ok _ =>
    .ok (build_preprocessor X_train cfg,
      hpo_fit (model_type_of cfg) cfg search)

theorem foldl_setAssoc_fresh {γ : Type} (f : String × γ → String) :
    ∀ (raw : List (String × γ)) (acc : List (String × γ)),
      (∀ p ∈ raw, f p ∉ keysOf acc) →
      (raw.map f).Nodup →
      raw.foldl (fun acc p => setAssoc acc (f p) p.2) acc =
        acc ++ raw.map (fun p => (f p, p.2)) := by
  intro raw
  induction raw with
  | nil =>
    intro acc _ _
    simp
  | cons p rest ih =>
    intro acc hfresh hnd
    have hndc : (f p :: rest.map f).Nodup := by simpa using hnd
    have hp : f p ∉ rest.map f := (List.nodup_cons.mp hndc).1
    simp only [List.foldl_cons]
    rw [setAssoc_eq_append_of_not_mem _ _ _ (hfresh p (by simp))]
    rw [ih (acc ++ [(f p, p.2)]) ?_ (List.nodup_cons.mp hndc).2]
    · simp
    · intro q hq
      have h1 : f q ∉ keysOf acc := hfresh q (List.mem_cons_of_mem _ hq)
      have h2 : f q ≠ f p := by
        intro hc
        exact hp (hc ▸ List.mem_map_of_mem f hq)
      have hk : keysOf (acc ++ [(f p, p.2)]) = keysOf acc ++ [f p] := by
        simp [keysOf]
      rw [hk]
      simp only [List.mem_append, List.mem_singleton]
      rintro (hc | hc)
      · exact h1 hc
      · exact h2 hc

theorem normalize_param_grid_eq_map (raw : ParamGrid)
    (h : (raw.map (fun p => namespaced_key p.1)).Nodup) :
    normalize_param_grid raw =
      raw.map (fun p => (namespaced_key p.1, p.2)) := by
  unfold normalize_param_grid
  rw [foldl_setAssoc_fresh (fun p => namespaced_key p.1) raw []
    (by intro p _; simp [keysOf]) h]
  simp

theorem normalize_param_grid_ne_nil (raw : ParamGrid) (h : raw ≠ []) :
    normalize_param_grid raw ≠ [] := by
  unfold normalize_param_grid
  have aux : ∀ (rest : ParamGrid) (acc : ParamGrid), acc ≠ [] →
      rest.foldl (fun acc p => setAssoc acc (namespaced_key p.1) p.2) acc ≠
        [] := by
    intro rest
    induction rest with
    | nil =>
      intro acc ha
      simpa using ha
    | cons q t ih =>
      intro acc _
      simp only [List.foldl_cons]
      exact ih _ (setAssoc_ne_nil acc _ _)
  cases raw with
  | nil => exact absurd rfl h
  | cons q t =>
    simp only [List.foldl_cons]
    exact aux t _ (setAssoc_ne_nil [] _ _)

/-- C7: with search enabled, a non-empty configured grid takes precedence and
is normalized (bare names namespaced to "model__<name>", names already
holding "__" unchanged); with no configured grid the built-in default grid
for the model type is used; a resolved empty grid causes no search while the
grid-resolution outcome is still reported; and with search disabled the
pipeline is fit directly with the report enabled: false. -/
theorem train_model_grid_resolution (X : List Col) (cfg : Config)
    (mt : String) (search : ParamGrid → Nat → String → SearchOutcome) :
    (cfg.hpo_enabled.getD true = false →
      hpo_fit mt cfg search = .direct ⟨false, none, none, none, none, none⟩) ∧
    (cfg.hpo_enabled.getD true = true →
      (cfg.hpo_param_grid.getD []).isEmpty = false →
      hpo_fit mt cfg search =
        .searched (normalize_param_grid (cfg.hpo_param_grid.getD []))
          (cfg.hpo_cv_folds.getD 3) (cfg.hpo_scoring.getD "f1_weighted")
          ⟨true, some false, some (cfg.hpo_cv_folds.getD 3),
           some (cfg.hpo_scoring.getD "f1_weighted"),
           some (search (normalize_param_grid (cfg.hpo_param_grid.getD []))
             (cfg.hpo_cv_folds.getD 3)
             (cfg.hpo_scoring.getD "f1_weighted")).best_score,
           some (search (normalize_param_grid (cfg.hpo_param_grid.getD []))
             (cfg.hpo_cv_folds.getD 3)
             (cfg.hpo_scoring.getD "f1_weighted")).best_params⟩) ∧
    (((cfg.hpo_param_grid.getD []).map
        (fun p => namespaced_key p.1)).Nodup →
      normalize_param_grid (cfg.hpo_param_grid.getD []) =
        (cfg.hpo_param_grid.getD []).map
          (fun p => (namespaced_key p.1, p.2))) ∧
    (∀ key : String,
      (hasDoubleUnderscore key.data = true → namespaced_key key = key) ∧
      (hasDoubleUnderscore key.data = false →
        namespaced_key key = "model__" ++ key)) ∧
    (cfg.hpo_enabled.getD true = true →
      (cfg.hpo_param_grid.getD []).isEmpty = true →
      (default_param_grid mt).isEmpty = false →
      hpo_fit mt cfg search =
        .searched (default_param_grid mt)
          (cfg.hpo_cv_folds.getD 3) (cfg.hpo_scoring.getD "f1_weighted")
          ⟨true, some true, some (cfg.hpo_cv_folds.getD 3),
           some (cfg.hpo_scoring.getD "f1_weighted"),
           some (search (default_param_grid mt) (cfg.hpo_cv_folds.getD 3)
             (cfg.hpo_scoring.getD "f1_weighted")).best_score,
           some (search (default_param_grid mt) (cfg.hpo_cv_folds.getD 3)
             (cfg.hpo_scoring.getD "f1_weighted")).best_params⟩) ∧
    (cfg.hpo_enabled.getD true = true →
      (cfg.hpo_param_grid.getD []).isEmpty = true →
      (default_param_grid mt).isEmpty = true →
      hpo_fit mt cfg search =
        .direct ⟨true, some false, none, none, none, some []⟩) ∧
    (∀ m, build_model cfg = .ok m →
      train_model X cfg search =
        .ok (build_preprocessor X cfg,
          hpo_fit (model_type_of cfg) cfg search)) := by
  refine ⟨?_, ?_, ?_, ?_, ?_, ?_, ?_⟩
  · intro hdis
    simp [hpo_fit, hdis]
  · intro hen hconf
    have hne : normalize_param_grid (cfg.hpo_param_grid.getD []) ≠ [] := by
      refine normalize_param_grid_ne_nil _ ?_
      intro hc
      rw [hc] at hconf
      simp at hconf
    simp [hpo_fit, hen, hconf, List.isEmpty_iff, hne]
  · intro hnd
    exact normalize_param_grid_eq_map _ hnd
  · intro key
    constructor
    · intro h
      simp [namespaced_key, h]
    · intro h
      simp [namespaced_key, h]
  · intro hen hconf hdef
    simp [hpo_fit, hen, hconf, hdef]
  · intro hen hconf hdef
    simp [hpo_fit, hen, hconf, hdef]
  · intro m hm
    simp [train_model, hm]

/-- A configuration with a partly-bare configured grid. -/
def exCfg7 : Config :=
  { model_type := some "logistic_regression",
    hpo_param_grid := some [("C", [.atom "1.0"]),
      ("model__solver", [.atom "lbfgs"])] }

/-- An abstract search outcome. -/
def exSearch : ParamGrid → Nat → String → SearchOutcome :=
  fun _ _ _ => ⟨1, []⟩

/-- Witness for C7 at a concrete configuration. -/
theorem train_model_grid_resolution_witness :
    (exCfg7.hpo_enabled.getD true = false →
      hpo_fit "logistic_regression" exCfg7 exSearch =
        .direct ⟨false, none, none, none, none, none⟩) ∧
    (exCfg7.hpo_enabled.getD true = true →
      (exCfg7.hpo_param_grid.getD []).isEmpty = false →
      hpo_fit "logistic_regression" exCfg7 exSearch =
        .searched (normalize_param_grid (exCfg7.hpo_param_grid.getD []))
          (exCfg7.hpo_cv_folds.getD 3) (exCfg7.hpo_scoring.getD "f1_weighted")
          ⟨true, some false, some (exCfg7.hpo_cv_folds.getD 3),
           some (exCfg7.hpo_scoring.getD "f1_weighted"),
           some (exSearch (normalize_param_grid (exCfg7.hpo_param_grid.getD []))
             (exCfg7.hpo_cv_folds.getD 3)
             (exCfg7.hpo_scoring.getD "f1_weighted")).best_score,
           some (exSearch (normalize_param_grid (exCfg7.hpo_param_grid.getD []))
             (exCfg7.hpo_cv_folds.getD 3)
             (exCfg7.hpo_scoring.getD "f1_weighted")).best_params⟩) ∧
    (((exCfg7.hpo_param_grid.getD []).map
        (fun p => namespaced_key p.1)).Nodup →
      normalize_param_grid (exCfg7.hpo_param_grid.getD []) =
        (exCfg7.hpo_param_grid.getD []).map
          (fun p => (namespaced_key p.1, p.2))) ∧
    (∀ key : String,
      (hasDoubleUnderscore key.data = true → namespaced_key key = key) ∧
      (hasDoubleUnderscore key.data = false →
        namespaced_key key = "model__" ++ key)) ∧
    (exCfg7.hpo_enabled.getD true = true →
      (exCfg7.hpo_param_grid.getD []).isEmpty = true →
      (default_param_grid "logistic_regression").isEmpty = false →
      hpo_fit "logistic_regression" exCfg7 exSearch =
        .searched (default_param_grid "logistic_regression")
          (exCfg7.hpo_cv_folds.getD 3) (exCfg7.hpo_scoring.getD "f1_weighted")
          ⟨true, some true, some (exCfg7.hpo_cv_folds.getD 3),
           some (exCfg7.hpo_scoring.getD "f1_weighted"),
           some (exSearch (default_param_grid "logistic_regression")
             (exCfg7.hpo_cv_folds.getD 3)
             (exCfg7.hpo_scoring.getD "f1_weighted")).best_score,
           some (exSearch (default_param_grid "logistic_regression")
             (exCfg7.hpo_cv_folds.getD 3)
             (exCfg7.hpo_scoring.getD "f1_weighted")).best_params⟩) ∧
    (exCfg7.hpo_enabled.getD true = true →
      (exCfg7.hpo_param_grid.getD []).isEmpty = true →
      (default_param_grid "logistic_regression").isEmpty = true →
      hpo_fit "logistic_regression" exCfg7 exSearch =
        .direct ⟨true, some false, none, none, none, some []⟩) ∧
    (∀ m, build_model exCfg7 = .ok m →
      train_model exCols exCfg7 exSearch =
        .ok (build_preprocessor exCols exCfg7,
          hpo_fit (model_type_of exCfg7) exCfg7 exSearch)) :=
  train_model_grid_resolution exCols exCfg7 "logistic_regression" exSearch

/-! ## Dataset splitting (split_dataset) -/

/-- `float(dataset_cfg.get("test_size", 0.2))`. -/
def test_size_of (cfg : Config) : ℚ := cfg.dataset_test_size.getD (2/10)

/-- `int(dataset_cfg.get("random_state", 42))`. -/
def random_state_of (cfg : Config) : Nat := cfg.dataset_random_state.getD 42

/-- `y.nunique()`: the number of distinct label values. -/
def nunique {β : Type} [DecidableEq β] (y : List β) : Nat := y.dedup.length

/-- Modelled from the spec: stratified sampling groups the rows by label, so
class proportions are preserved across the cut.  For each distinct label in
order of first appearance, the rows carrying it in original order. -/
def stratOrder {α β : Type} [DecidableEq β] (pairs : List (α × β)) :
    List (α × β) :=
  (pairs.map Prod.snd).dedup.flatMap
    (fun c => pairs.filter (fun p => p.2 = c))

/-- Modelled from the spec: `sklearn.model_selection.train_test_split` is
third-party library code, not part of this repository.  The spec requires a
partition of the rows into disjoint train and test parts by the configured
test fraction, exactly reproducible for a fixed seed and stratified by the
label argument when one is passed.  We model it as a deterministic rotation
by the seed of the (label-grouped, when stratifying) row list, cutting the
first ceil(test_size times n) rows off as the test part; sklearn returns
(X_train, X_test, y_train, y_test). -/
def train_test_split {α β : Type} [DecidableEq β] (X : List α) (y : List β)
    (test_size : ℚ) (random_state : Nat) (stratify : Option (List β)) :
    List α × List α × List β × List β :=
  let pairs := X.zip y
  let ordered := match stratify with
    | none => pairs
    | some _ => stratOrder pairs
  let shuffled := ordered.rotate random_state
  let n_test := (⌈test_size * (pairs.length : ℚ)⌉).toNat
  let test := shuffled.take n_test
  let train := shuffled.drop n_test
  (train.map Prod.fst, test.map Prod.fst, train.map Prod.snd,
    test.map Prod.snd)

/-- Embedding of `split_dataset`: read the configured fraction and seed and
delegate to `train_test_split`, stratifying by the label exactly when it has
more than one distinct value. -/
def split_dataset {α β : Type} [DecidableEq β] (X : List α) (y : List β)
    (cfg : Config) : List α × List α × List β × List β :=
  train_test_split X y (test_size_of cfg) (random_state_of cfg)
    (if 1 < nunique y then some y else none)

theorem flatMap_congr_mem {α β : Type} {l : List α} {f g : α → List β}
    (h : ∀ a ∈ l, f a = g a) : l.flatMap f = l.flatMap g := by
  induction l with
  | nil => rfl
  | cons a t ih =>
    rw [List.flatMap_cons, List.flatMap_cons, h a (by simp),
      ih (fun b hb => h b (List.mem_cons_of_mem _ hb))]

theorem bind_filter_perm {α β : Type} [DecidableEq β] :
    ∀ (cs : List β) (pairs : List (α × β)), cs.Nodup →
      (∀ p ∈ pairs, p.2 ∈ cs) →
      (cs.flatMap fun c => pairs.filter (fun p => p.2 = c)).Perm pairs := by
  intro cs
  induction cs with
  | nil =>
    intro pairs _ hall
    cases pairs with
    | nil => simp
    | cons q t => exact absurd (hall q (by simp)) (List.not_mem_nil _)
  | cons c cs' ih =>
    intro pairs hnd hall
    rw [List.flatMap_cons]
    have hc : c ∉ cs' := (List.nodup_cons.mp hnd).1
    have hcs' : cs'.Nodup := (List.nodup_cons.mp hnd).2
    have hfun : ∀ c' ∈ cs', pairs.filter (fun p => p.2 = c') =
        (pairs.filter (fun p => !(decide (p.2 = c)))).filter
          (fun p => p.2 = c') := by
      intro c' hc'
      rw [List.filter_filter]
      apply List.filter_congr
      intro p _
      by_cases h : p.2 = c'
      · have hne : ¬ p.2 = c := by
          rw [h]
          intro hcc
          exact hc (hcc ▸ hc')
        have hcc : ¬ c' = c := fun hcc => hc (hcc ▸ hc')
        simp [h, hne, hcc]
      · simp [h]
    rw [flatMap_congr_mem hfun]
    have hih : (cs'.flatMap fun c' =>
        (pairs.filter (fun p => !(decide (p.2 = c)))).filter
          (fun p => p.2 = c')).Perm
        (pairs.filter (fun p => !(decide (p.2 = c)))) := by
      refine ih (pairs.filter (fun p => !(decide (p.2 = c)))) hcs' ?_
      intro p hp
      rcases List.mem_filter.mp hp with ⟨hpm, hpc⟩
      rcases List.mem_cons.mp (hall p hpm) with h | h
      · exact absurd (by simpa using hpc) (not_not.mpr h)
      · exact h
    refine List.Perm.trans (List.Perm.append_left _ hih) ?_
    exact List.filter_append_perm (fun p => decide (p.2 = c)) pairs

theorem stratOrder_perm {α β : Type} [DecidableEq β]
    (pairs : List (α × β)) : (stratOrder pairs).Perm pairs := by
  unfold stratOrder
  refine bind_filter_perm _ pairs (List.nodup_dedup _) ?_
  intro p hp
  exact List.mem_dedup.mpr (List.mem_map_of_mem Prod.snd hp)

theorem train_test_split_partition {α β : Type}
    [DecidableEq β] (X : List α) (y : List β) (ts : ℚ) (rs : Nat)
    (strat : Option (List β)) (hlen : X.length = y.length) :
    ((train_test_split X y ts rs strat).1 ++
      (train_test_split X y ts rs strat).2.1).Perm X ∧
    ((train_test_split X y ts rs strat).2.2.1 ++
      (train_test_split X y ts rs strat).2.2.2).Perm y ∧
    (train_test_split X y ts rs strat).1.length +
      (train_test_split X y ts rs strat).2.1.length = X.length ∧
    (train_test_split X y ts rs strat).2.2.1.length +
      (train_test_split X y ts rs strat).2.2.2.length = y.length := by
  have hordered : (match strat with
      | none => X.zip y
      | some _ => stratOrder (X.zip y)).Perm (X.zip y) := by
    cases strat with
    | none => exact List.Perm.refl _
    | some l => exact stratOrder_perm (X.zip y)
  have hpairs : (((match strat with
      | none => X.zip y
      | some _ => stratOrder (X.zip y)).rotate rs).drop
        ((⌈ts * ((X.zip y).length : ℚ)⌉).toNat) ++
      ((match strat with
      | none => X.zip y
      | some _ => stratOrder (X.zip y)).rotate rs).take
        ((⌈ts * ((X.zip y).length : ℚ)⌉).toNat)).Perm (X.zip y) := by
    refine List.Perm.trans (List.perm_append_comm) ?_
    rw [List.take_append_drop]
    exact List.Perm.trans (List.rotate_perm _ _) hordered
  have hX : (train_test_split X y ts rs strat).1 ++
      (train_test_split X y ts rs strat).2.1 =
      ((((match strat with
        | none => X.zip y
        | some _ => stratOrder (X.zip y)).rotate rs).drop
          ((⌈ts * ((X.zip y).length : ℚ)⌉).toNat) ++
        ((match strat with
        | none => X.zip y
        | some _ => stratOrder (X.zip y)).rotate rs).take
          ((⌈ts * ((X.zip y).length : ℚ)⌉).toNat)).map Prod.fst) := by
    simp [train_test_split]
  have hY : (train_test_split X y ts rs strat).2.2.1 ++
      (train_test_split X y ts rs strat).2.2.2 =
      ((((match strat with
        | none => X.zip y
        | some _ => stratOrder (X.zip y)).rotate rs).drop
          ((⌈ts * ((X.zip y).length : ℚ)⌉).toNat) ++
        ((match strat with
        | none => X.zip y
        | some _ => stratOrder (X.zip y)).rotate rs).take
          ((⌈ts * ((X.zip y).length : ℚ)⌉).toNat)).map Prod.snd) := by
    simp [train_test_split]
  have hpermX : ((train_test_split X y ts rs strat).1 ++
      (train_test_split X y ts rs strat).2.1).Perm X := by
    rw [hX]
    refine List.Perm.trans (List.Perm.map Prod.fst hpairs) ?_
    rw [List.map_fst_zip X y (le_of_eq hlen)]
  have hpermY : ((train_test_split X y ts rs strat).2.2.1 ++
      (train_test_split X y ts rs strat).2.2.2).Perm y := by
    rw [hY]
    refine List.Perm.trans (List.Perm.map Prod.snd hpairs) ?_
    rw [List.map_snd_zip X y (le_of_eq hlen.symm)]
  refine ⟨hpermX, hpermY, ?_, ?_⟩
  · have := hpermX.length_eq
    simpa using this
  · have := hpermY.length_eq
    simpa using this

/-- C5: `split_dataset` partitions the rows: the train and test parts
together are a permutation of the input rows (hence disjoint as a partition)
and their sizes sum to the input size; the stratify argument is the label
column exactly when the label has more than one distinct value and nothing
when it is constant; and the result depends only on the input data, the
configured test fraction and the configured seed, hence is identical across
repeated calls with a fixed seed and input. -/
theorem split_dataset_spec {α β : Type} [DecidableEq β]
    (X : List α) (y : List β) (cfg : Config) (hlen : X.length = y.length) :
    ((split_dataset X y cfg).1 ++ (split_dataset X y cfg).2.1).Perm X ∧
    ((split_dataset X y cfg).2.2.1 ++ (split_dataset X y cfg).2.2.2).Perm y ∧
    (split_dataset X y cfg).1.length + (split_dataset X y cfg).2.1.length =
      X.length ∧
    (split_dataset X y cfg).2.2.1.length +
      (split_dataset X y cfg).2.2.2.length = y.length ∧
    (1 < nunique y → split_dataset X y cfg =
      train_test_split X y (test_size_of cfg) (random_state_of cfg)
        (some y)) ∧
    (nunique y ≤ 1 → split_dataset X y cfg =
      train_test_split X y (test_size_of cfg) (random_state_of cfg) none) ∧
    (∀ cfg' : Config, test_size_of cfg' = test_size_of cfg →
      random_state_of cfg' = random_state_of cfg →
      split_dataset X y cfg' = split_dataset X y cfg) := by
  obtain ⟨h1, h2, h3, h4⟩ := train_test_split_partition X y (test_size_of cfg)
    (random_state_of cfg) (if 1 < nunique y then some y else none) hlen
  refine ⟨h1, h2, h3, h4, ?_, ?_, ?_⟩
  · intro h
    simp [split_dataset, h]
  · intro h
    have hnot : ¬ 1 < nunique y := by omega
    simp [split_dataset, hnot]
  · intro cfg' hts hrs
    simp [split_dataset, hts, hrs]

/-- Witness for C5 on a concrete four-row dataset with two classes. -/
theorem split_dataset_spec_witness :
    ["a", "b", "c", "d"].length = [0, 1, 0, 1].length ∧
    (((split_dataset ["a", "b", "c", "d"] [0, 1, 0, 1] {}).1 ++
      (split_dataset ["a", "b", "c", "d"] [0, 1, 0, 1] {}).2.1).Perm
        ["a", "b", "c", "d"] ∧
    ((split_dataset ["a", "b", "c", "d"] [0, 1, 0, 1] {}).2.2.1 ++
      (split_dataset ["a", "b", "c", "d"] [0, 1, 0, 1] {}).2.2.2).Perm
        [0, 1, 0, 1] ∧
    (split_dataset ["a", "b", "c", "d"] [0, 1, 0, 1] {}).1.length +
      (split_dataset ["a", "b", "c", "d"] [0, 1, 0, 1] {}).2.1.length =
        ["a", "b", "c", "d"].length ∧
    (split_dataset ["a", "b", "c", "d"] [0, 1, 0, 1] {}).2.2.1.length +
      (split_dataset ["a", "b", "c", "d"] [0, 1, 0, 1] {}).2.2.2.length =
        [0, 1, 0, 1].length ∧
    (1 < nunique [0, 1, 0, 1] →
      split_dataset ["a", "b", "c", "d"] [0, 1, 0, 1] {} =
      train_test_split ["a", "b", "c", "d"] [0, 1, 0, 1] (test_size_of {})
        (random_state_of {}) (some [0, 1, 0, 1])) ∧
    (nunique [0, 1, 0, 1] ≤ 1 →
      split_dataset ["a", "b", "c", "d"] [0, 1, 0, 1] {} =
      train_test_split ["a", "b", "c", "d"] [0, 1, 0, 1] (test_size_of {})
        (random_state_of {}) none) ∧
    (∀ cfg' : Config, test_size_of cfg' = test_size_of {} →
      random_state_of cfg' = random_state_of {} →
      split_dataset ["a", "b", "c", "d"] [0, 1, 0, 1] cfg' =
        split_dataset ["a", "b", "c", "d"] [0, 1, 0, 1] {})) :=
  ⟨by decide, split_dataset_spec ["a", "b", "c", "d"] [0, 1, 0, 1] {}
    (by decide)⟩

end MLAuto
